import Mathlib

set_option linter.unusedVariables false

/-!
Verification of the Cowork/Flash Assistant core against its design document.

The safety-critical core (PlanGuard, SessionAuthority, ReliableExecutor,
RecoveryManager, StrategyRanker) lives in the Python backend, which is not
part of this tree; those components are modelled from the specification text
(each such definition carries a `Modelled from the spec:` doc comment).
The Electron backend watchdog (ui/public/electron.js) and the ExecutionLogs
grouped view (ui/src/components/ExecutionLogs.js) are embedded directly from
the JavaScript source.

The file is organised as definitions first, then theorems.
-/

namespace Cowork

/-! ## Definitions: generic sorting helper (models JavaScript Array.sort) -/

/-- Insert an element into a list so that elements for which `le x y` holds
come first; used to model a comparison sort. -/
def insertSorted {α : Type} (le : α → α → Bool) (x : α) : List α → List α
  | [] => [x]
  | y :: ys => if le x y then x :: y :: ys else y :: insertSorted le x ys

/-- Comparison sort used to model JavaScript `Array.sort(cmp)`. -/
def sortBy {α : Type} (le : α → α → Bool) : List α → List α
  | [] => []
  | x :: xs => insertSorted le x (sortBy le xs)

/-! ## Definitions: Electron backend watchdog (src/ui/public/electron.js) -/

namespace Watchdog

/-- What the `close` handler of the backend process does
(src/ui/public/electron.js, lines 98-110). -/
inductive WatchAction where
  | spawnBackend
  | showRecovery
  | noAction
deriving DecidableEq, Repr

/-- `const MAX_RESTARTS = 3` (src/ui/public/electron.js, line 17). -/
def MAX_RESTARTS : Nat := 3

/-- One `close` event of the backend process: given the exit code and the
current value of `backendRestarts`, compute the new counter and the action
taken (restart via `startBackend`, or `showRecoveryScreen`, or nothing on a
clean exit).  Mirrors `backendProcess.on('close', ...)`. -/
def onBackendClose (code : Int) (restarts : Nat) : Nat × WatchAction :=
  if code ≠ 0 then
    if restarts < MAX_RESTARTS then (restarts + 1, WatchAction.spawnBackend)
    else (restarts, WatchAction.showRecovery)
  else (restarts, WatchAction.noAction)

/-- A successful `/health` probe in `waitForBackend` resets the restart
counter (`backendRestarts = 0`, line 129). -/
def onHealthCheckOk (restarts : Nat) : Nat := 0

/-- Fold a sequence of backend exits (with no intervening successful health
check) through the watchdog, collecting the actions taken. -/
def runCloses : List Int → Nat → Nat × List WatchAction
  | [], r => (r, [])
  | c :: cs, r =>
    let step := onBackendClose c r
    let rest := runCloses cs step.1
    (rest.1, step.2 :: rest.2)

/-- Number of respawn actions in a list of watchdog actions. -/
def spawnCount : List WatchAction → Nat
  | [] => 0
  | WatchAction.spawnBackend :: rest => spawnCount rest + 1
  | _ :: rest => spawnCount rest

end Watchdog

/-! ## Definitions: SessionAuthority (backend component, modelled from the
spec) -/

namespace SessionAuthority

/-- Modelled from the spec: a Session record,
`{session_id, granted_at, expires_at, allowed apps/folders sets,
network_allowed flag}` (spec section 3).  Time is in abstract ticks. -/
structure SessionRec where
  sessionId : Nat
  grantedAt : Nat
  expiresAt : Nat
  apps : List String
  folders : List String
  networkAllowed : Bool
deriving DecidableEq, Repr

/-- Modelled from the spec: the SessionAuthority state.  `current` is the
in-memory state (`none` is the `NoSession` state of the state machine),
`persisted` is the session file, and `backupFile` is the automatically
overwritten backup copy kept on every write (spec sections 3 and 4.2). -/
structure AuthState where
  current : Option SessionRec
  persisted : Option SessionRec
  backupFile : Option SessionRec
deriving DecidableEq, Repr

/-- The session record produced by a grant. -/
def grantRec (now ttl : Nat) (apps folders : List String) (net : Bool)
    (sid : Nat) : SessionRec :=
  { sessionId := sid, grantedAt := now, expiresAt := now + ttl,
    apps := apps, folders := folders, networkAllowed := net }

/-- Modelled from the spec: `grant(ttl, apps, folders, network_allowed)` —
a new grant overwrites the previous one (last-writer-wins), is persisted, and
the prior file is preserved as a backup (spec section 4.2). -/
def grant (now ttl : Nat) (apps folders : List String) (net : Bool)
    (sid : Nat) (st : AuthState) : AuthState :=
  let s := grantRec now ttl apps folders net sid
  { current := some s, persisted := some s, backupFile := st.persisted }

/-- Modelled from the spec: `revoke()` — transitions Active to NoSession
instantly and persists the mutation; while already in NoSession there is no
mutation, so nothing is written (spec sections 4.2 and 8). -/
def revoke (st : AuthState) : AuthState :=
  match st.current with
  | none => st
  | some _ => { current := none, persisted := none, backupFile := st.persisted }

/-- Modelled from the spec: `check() -> bool` — lazily transitions
Active to NoSession when it observes an elapsed deadline, and reports whether
the session is valid at the current time (spec section 4.2). -/
def check (now : Nat) (st : AuthState) : Bool × AuthState :=
  match st.current with
  | none => (false, st)
  | some s =>
    if now < s.expiresAt then (true, st)
    else (false, { current := none, persisted := none, backupFile := st.persisted })

/-- Modelled from the spec: `time_remaining()` (spec section 4.2). -/
def timeRemaining (now : Nat) (st : AuthState) : Nat :=
  match st.current with
  | none => 0
  | some s => s.expiresAt - now

end SessionAuthority

/-! ## Definitions: data model — Plan, Step, policy configuration -/

/-- Modelled from the spec: a Step,
`{step_id, tool name, parameter map, description}` (spec section 3); the
`critical` flag records whether a failure of this Step aborts the remaining
Plan (spec section 4.3, step 5: only Steps explicitly marked non-critical
allow the Plan to continue). -/
structure Step where
  stepId : Nat
  tool : String
  params : List (String × String)
  description : String
  critical : Bool
deriving DecidableEq, Repr

/-- Modelled from the spec: a Plan, an ordered list of Steps produced by the
external Planner (spec section 3). -/
structure Plan where
  planId : Nat
  task : String
  steps : List Step
deriving DecidableEq, Repr

/-- Modelled from the spec: the static policy and executor configuration —
the step-count maximum (documented as 50), the tool allow-set, the trusted
app/domain sets with aliases, the permitted filesystem roots, the circuit
threshold and cool-down, and the ranker parameters (spec sections 4.1-4.5
and the README's production-safety notes). -/
structure Config where
  maxSteps : Nat
  allowedTools : List String
  trustedApps : List String
  appAliases : List (String × String)
  trustedDomains : List String
  permittedRoots : List (List String)
  failureThreshold : Nat
  cooldownTicks : Nat
  minSamples : Nat
  defaultOrder : List String
  pauseTimeout : Nat
deriving Repr

/-- The documented default configuration: 50-step cap, default-deny tool
allow-set, trusted apps and aliases from `assistant/config/trusted_apps.json`,
circuit opens after 3 consecutive failures. -/
def defaultConfig : Config :=
  { maxSteps := 50,
    allowedTools := ["open_app", "type_text", "click", "keypress", "open_url", "read_file"],
    trustedApps := ["notepad", "calc", "chrome", "code", "explorer", "msedge", "firefox"],
    appAliases := [("calculator", "calc"), ("vscode", "code"), ("edge", "msedge")],
    trustedDomains := ["github.com", "google.com", "microsoft.com", "openai.com",
                       "stackoverflow.com", "wikipedia.org", "docs.python.org"],
    permittedRoots := [["Users"], ["tmp"]],
    failureThreshold := 3,
    cooldownTicks := 60,
    minSamples := 5,
    defaultOrder := ["structural-accessibility", "visual-recognition",
                     "coordinate-replay", "process-control"],
    pauseTimeout := 30 }

/-! ## Definitions: PlanGuard (backend component, modelled from the spec) -/

namespace PlanGuard

/-- Modelled from the spec: normalized (case-insensitive, alias-resolved)
app name (spec section 4.1). -/
def normalizeApp (cfg : Config) (name : String) : String :=
  let lower := name.toLower
  match cfg.appAliases.lookup lower with
  | some canonical => canonical
  | none => lower

/-- Modelled from the spec: raw IP literals are always rejected as network
targets (spec section 4.1). -/
def isIpLiteral (host : String) : Bool :=
  host ≠ "" && host.toList.all (fun c => c.isDigit || c = '.')

/-- Path components of a slash-separated path, dropping empty segments and
`.` segments. -/
def pathComponents (p : String) : List String :=
  (p.splitOn "/").filter (fun s => s ≠ "" && s ≠ ".")

/-- Modelled from the spec: canonicalization of a filesystem path —
`..` segments are resolved and escaping above the root (traversal) yields
`none` (spec section 4.1 and the README's path-traversal protection). -/
def resolveDots (acc : List String) : List String → Option (List String)
  | [] => some acc.reverse
  | c :: rest =>
    if c = ".." then
      match acc with
      | [] => none
      | _ :: acc2 => resolveDots acc2 rest
    else resolveDots (c :: acc) rest

/-- Canonical absolute path of a filesystem parameter, or `none` on
traversal above the root. -/
def canonicalPath (p : String) : Option (List String) :=
  resolveDots [] (pathComponents p)

/-- Parameter keys treated as filesystem paths. -/
def fsParamKeys : List String := ["path", "file", "folder"]

/-- Modelled from the spec: app-opening tools (spec section 4.1). -/
def isAppOpenTool (tool : String) : Bool := tool = "open_app"

/-- Modelled from the spec: network tools (spec section 4.1). -/
def isNetworkTool (tool : String) : Bool := tool = "open_url"

/-- Modelled from the spec: every policy rule violated by one Step — tool
allow-set (default-deny), trusted-app check for app-opening tools,
trusted-domain check with IP literals always rejected for network tools, and
permitted-roots check with traversal rejected for filesystem parameters
(spec section 4.1). -/
def stepViolations (cfg : Config) (s : Step) : List String :=
  (if cfg.allowedTools.contains s.tool then []
   else ["tool not allowed: " ++ s.tool]) ++
  (if isAppOpenTool s.tool then
    match s.params.lookup "app" with
    | none => ["app not trusted: missing app parameter"]
    | some a =>
      if cfg.trustedApps.contains (normalizeApp cfg a) then []
      else ["app not trusted: " ++ a]
   else []) ++
  (if isNetworkTool s.tool then
    match s.params.lookup "host" with
    | none => ["domain not trusted: missing host parameter"]
    | some h =>
      if isIpLiteral h then ["raw ip literal rejected: " ++ h]
      else if cfg.trustedDomains.contains h then []
      else ["domain not trusted: " ++ h]
   else []) ++
  ((s.params.filter (fun kv => fsParamKeys.contains kv.1)).flatMap (fun kv =>
    match canonicalPath kv.2 with
    | none => ["path traversal rejected: " ++ kv.2]
    | some canon =>
      if cfg.permittedRoots.any (fun r => r.isPrefixOf canon) then []
      else ["path outside permitted roots: " ++ kv.2]))

/-- The size-violation entry: step count above the configured maximum is a
denial-of-service violation (spec sections 4.1 and 8). -/
def sizeViolations (cfg : Config) (p : Plan) : List String :=
  if cfg.maxSteps < p.steps.length then ["plan exceeds maximum step count"] else []

/-- Modelled from the spec: the PlanGuard verdict,
`{admitted: bool, violations: [string]}` (spec section 4.1). -/
structure Verdict where
  admitted : Bool
  violations : List String
deriving DecidableEq, Repr

/-- Modelled from the spec: `PlanGuard.validate(plan)` — checks run against
every Step, not short-circuited, so all violations are reported together
(spec section 4.1). -/
def validate (cfg : Config) (p : Plan) : Verdict :=
  let vs := sizeViolations cfg p ++ p.steps.flatMap (stepViolations cfg)
  { admitted := vs.isEmpty, violations := vs }

end PlanGuard

/-! ## Definitions: StrategyRanker, RecoveryManager and ReliableExecutor
(backend components, modelled from the spec) -/

namespace Executor

open SessionAuthority

/-- Modelled from the spec: the FailureClass taxonomy of RecoveryManager,
`{blocking-dialog, unexpected-window-focus, target-not-found,
environment-locked, unknown}` (spec section 4.4). -/
inductive FailureClass where
  | blockingDialog
  | unexpectedFocus
  | targetNotFound
  | environmentLocked
  | unknown
deriving DecidableEq, Repr

/-- Modelled from the spec: the outcome a Strategy reports for one attempt
(explicit Outcome values carrying a FailureClass, spec section 9). -/
inductive AttemptOutcome where
  | ok
  | fail (cls : FailureClass)
deriving DecidableEq, Repr

/-- Modelled from the spec: recoverable failure classes trigger a
remediation and one same-strategy retry; `environment-locked` is
special-cased (pause) and `unknown` moves directly to the next candidate
(spec sections 4.3 and 4.4). -/
def recoverable : FailureClass → Bool
  | FailureClass.blockingDialog => true
  | FailureClass.unexpectedFocus => true
  | FailureClass.targetNotFound => true
  | FailureClass.environmentLocked => false
  | FailureClass.unknown => false

/-- Modelled from the spec: a StrategyStat record,
`{app_key, strategy_name, success_count, attempt_count}`; the rolling rate
is the derived ratio (spec sections 3 and 4.5). -/
structure StrategyStat where
  appKey : String
  strategyName : String
  successCount : Nat
  attemptCount : Nat
deriving DecidableEq, Repr

/-- The accumulated statistic for an (app, strategy) pair, defaulting to
zero counts when nothing has been recorded. -/
def statFor : List StrategyStat → String → String → StrategyStat
  | [], app, strat =>
    { appKey := app, strategyName := strat, successCount := 0, attemptCount := 0 }
  | t :: ts, app, strat =>
    if t.appKey = app ∧ t.strategyName = strat then t else statFor ts app strat

/-- Modelled from the spec: `record(app_key, strategy_id, success)` —
incremental per-(app, strategy) success-rate accounting, updated after every
attempt (spec sections 4.3 step 6 and 4.5). -/
def recordStat : List StrategyStat → String → String → Bool → List StrategyStat
  | [], app, strat, succ =>
    [{ appKey := app, strategyName := strat,
       successCount := if succ then 1 else 0, attemptCount := 1 }]
  | t :: ts, app, strat, succ =>
    if t.appKey = app ∧ t.strategyName = strat then
      { t with attemptCount := t.attemptCount + 1,
               successCount := t.successCount + (if succ then 1 else 0) } :: ts
    else t :: recordStat ts app strat succ

/-- Descending rolling-rate comparison by cross-multiplication (rates are
`success_count / attempt_count`, bounded to `[0,1]`). -/
def rateGe (a b : StrategyStat) : Bool :=
  b.successCount * a.attemptCount ≤ a.successCount * b.attemptCount

/-- Modelled from the spec: `rank(app_key, tool)` — below the
minimum-sample threshold the fixed default order is used; above it the
candidates are ordered by descending rolling success rate
(spec sections 4.3 step 1 and 4.5). -/
def rank (cfg : Config) (stats : List StrategyStat) (app : String)
    (tool : String) : List String :=
  if cfg.defaultOrder.all (fun n => (statFor stats app n).attemptCount < cfg.minSamples) then
    cfg.defaultOrder
  else
    (sortBy rateGe (cfg.defaultOrder.map (statFor stats app))).map
      (fun t => t.strategyName)

/-- Modelled from the spec: the execution environment — how each Strategy
attempt turns out at a given tick, what the Verifier observes, whether a
remediation succeeds, and when an environment lock clears.  These stand for
the machine being automated. -/
structure ExecEnv where
  attemptRes : Nat → String → AttemptOutcome
  verifyOk : Nat → String → Bool
  remediateOk : Nat → FailureClass → Bool
  lockCleared : Nat → Bool

/-- Modelled from the spec: CircuitState,
`{consecutive_failures, open flag, opened_at}` (spec section 3). -/
structure CircuitState where
  consecutiveFailures : Nat
  isOpen : Bool
  openedAt : Nat
deriving DecidableEq, Repr

/-- A Step success resets the consecutive-failure counter and closes the
circuit (spec section 4.3 step 6). -/
def circuitSuccess (c : CircuitState) : CircuitState :=
  { consecutiveFailures := 0, isOpen := false, openedAt := c.openedAt }

/-- A Step failure increments the counter; reaching the threshold opens the
circuit (spec section 4.3 step 6). -/
def circuitFailure (cfg : Config) (now : Nat) (c : CircuitState) : CircuitState :=
  let f := c.consecutiveFailures + 1
  if cfg.failureThreshold ≤ f then
    { consecutiveFailures := f, isOpen := true, openedAt := now }
  else
    { consecutiveFailures := f, isOpen := c.isOpen, openedAt := c.openedAt }

/-- Modelled from the spec: the mutable execution state threaded through the
ReliableExecutor — the SessionAuthority state, the abstract clock, the
circuit breaker and the strategy statistics. -/
structure ExecState where
  auth : AuthState
  now : Nat
  circuit : CircuitState
  stats : List StrategyStat
deriving Repr

/-- Why an execution aborted. -/
inductive AbortReason where
  | authExpired
  | circuitOpen
  | stepFailedCritical
  | pauseTimeout
deriving DecidableEq, Repr

/-- Modelled from the spec: the structured event stream exposed to
observers (spec section 6), with an explicit event for each Strategy
invocation. -/
inductive Event where
  | stepStarted (stepId : Nat)
  | strategyAttempt (stepId : Nat) (strategyName : String)
  | stepStrategySwitch (stepId : Nat) (strategyName : String)
  | stepVerifying (stepId : Nat)
  | stepSucceeded (stepId : Nat)
  | stepFailed (stepId : Nat)
  | planPaused
  | planResumed
  | planAborted (reason : AbortReason)
  | planFinished
deriving DecidableEq, Repr

/-- Whether an event is a plan-abort event. -/
def isAbortEvent : Event → Bool
  | Event.planAborted _ => true
  | _ => false

/-- The app key used for statistics, derived from a Step's parameters. -/
def appKeyOf (s : Step) : String :=
  match s.params.lookup "app" with
  | some a => a.toLower
  | none => "global"

/-- Result of one Strategy attempt, after verification. -/
inductive AttemptR where
  | succeeded
  | failedWith (cls : FailureClass)
  | authLost
deriving DecidableEq, Repr

/-- Modelled from the spec: one Strategy attempt — re-check
`SessionAuthority.check()` first (false aborts the entire execution), invoke
the Strategy, and on completion invoke the Verifier; verification failure is
treated identically to execution failure; the statistic for the strategy is
recorded after the attempt (spec section 4.3 steps 2, 3 and 6). -/
def attemptOnce (env : ExecEnv) (s : Step) (c : String) (st : ExecState) :
    AttemptR × ExecState × List Event :=
  match check st.now st.auth with
  | (false, a2) => (AttemptR.authLost, { st with auth := a2 }, [])
  | (true, a2) =>
    let st1 := { st with auth := a2 }
    match env.attemptRes st1.now c with
    | AttemptOutcome.ok =>
      let v := env.verifyOk st1.now c
      let st2 := { st1 with stats := recordStat st1.stats (appKeyOf s) c v,
                            now := st1.now + 1 }
      if v then
        (AttemptR.succeeded, st2, [Event.strategyAttempt s.stepId c, Event.stepVerifying s.stepId])
      else
        (AttemptR.failedWith FailureClass.unknown, st2,
         [Event.strategyAttempt s.stepId c, Event.stepVerifying s.stepId])
    | AttemptOutcome.fail cls =>
      let st2 := { st1 with stats := recordStat st1.stats (appKeyOf s) c false,
                            now := st1.now + 1 }
      (AttemptR.failedWith cls, st2, [Event.strategyAttempt s.stepId c])

/-- Verdict of running one Step through its ranked candidate list. -/
inductive StepVerdict where
  | ok (strategyUsed : String) (attempts : Nat)
  | allFailed (attempts : Nat)
  | authLost (attempts : Nat)
  | locked (attempts : Nat)
deriving DecidableEq, Repr

/-- Modelled from the spec: walk the ranked candidate list — a recoverable
failure triggers a remediation and one same-strategy retry before moving to
the next candidate, `environment-locked` pauses the Plan, unknown classes
move directly to the next candidate, and a false session check aborts the
entire execution (spec section 4.3 steps 2-4 and section 4.4). -/
def runCandidates (env : ExecEnv) (s : Step) :
    List String → ExecState → Nat → List Event → StepVerdict × ExecState × List Event
  | [], st, att, evs => (StepVerdict.allFailed att, st, evs)
  | c :: cs, st, att, evs =>
    match attemptOnce env s c st with
    | (AttemptR.authLost, st1, evs1) => (StepVerdict.authLost att, st1, evs ++ evs1)
    | (AttemptR.succeeded, st1, evs1) => (StepVerdict.ok c (att + 1), st1, evs ++ evs1)
    | (AttemptR.failedWith cls, st1, evs1) =>
      if cls = FailureClass.environmentLocked then
        (StepVerdict.locked (att + 1), st1, evs ++ evs1)
      else if recoverable cls && env.remediateOk st1.now cls then
        let str := { st1 with now := st1.now + 1 }
        match attemptOnce env s c str with
        | (AttemptR.authLost, st2, evs2) =>
          (StepVerdict.authLost (att + 1), st2, evs ++ evs1 ++ evs2)
        | (AttemptR.succeeded, st2, evs2) =>
          (StepVerdict.ok c (att + 2), st2, evs ++ evs1 ++ evs2)
        | (AttemptR.failedWith cls2, st2, evs2) =>
          if cls2 = FailureClass.environmentLocked then
            (StepVerdict.locked (att + 2), st2, evs ++ evs1 ++ evs2)
          else
            runCandidates env s cs st2 (att + 2)
              (evs ++ evs1 ++ evs2 ++ [Event.stepStrategySwitch s.stepId c])
      else
        runCandidates env s cs st1 (att + 1)
          (evs ++ evs1 ++ [Event.stepStrategySwitch s.stepId c])

/-- Modelled from the spec: run one Step — obtain the ordered candidate list
from the StrategyRanker, then walk it (spec section 4.3 steps 1-4). -/
def runStep (cfg : Config) (env : ExecEnv) (s : Step) (st : ExecState) :
    StepVerdict × ExecState × List Event :=
  let cands := rank cfg st.stats (appKeyOf s) s.tool
  let r := runCandidates env s cands st 0 []
  (r.1, r.2.1, Event.stepStarted s.stepId :: r.2.2)

/-- Modelled from the spec: one StepResult per attempt sequence,
`{step_id, strategy used, attempt count, success flag}` (spec section 3). -/
structure StepResult where
  stepId : Nat
  strategyUsed : Option String
  attempts : Nat
  success : Bool
deriving DecidableEq, Repr

/-- Terminal status of an ExecutionReport (spec section 7: ordinary failure,
`AuthorizationExpired` and `ResourceExhausted` are distinct surfaces). -/
inductive ReportStatus where
  | success
  | failed
  | authorizationExpired
  | resourceExhausted
deriving DecidableEq, Repr

/-- Modelled from the spec: the terminal ExecutionReport together with the
emitted event stream and the final executor state. -/
structure ExecOut where
  status : ReportStatus
  results : List StepResult
  finalState : ExecState
  events : List Event
deriving Repr

/-- Wait for the environment lock to clear: the number of ticks waited
before `lockCleared` first holds within the budget, or `none` when the
pause timeout elapses first (spec section 4.4). -/
def findClear (clears : Nat → Bool) (now : Nat) : Nat → Option Nat
  | 0 => none
  | b + 1 =>
    if clears now then some 0
    else (findClear clears (now + 1) b).map (fun k => k + 1)

/-- An event list that contains no plan-abort event. -/
def abortFree (l : List Event) : Prop :=
  ∀ r : AbortReason, Event.planAborted r ∉ l

/-- Modelled from the spec: the ReliableExecutor core loop over the Steps of
an admitted Plan (spec section 4.3).  `budget` is the remaining plan-pause
timeout for environment-locked recovery.  Per Step: run the ranked
candidates (each attempt re-checks the session; false aborts the whole
execution); after the outcome update the circuit (success resets, failure
increments, threshold opens and aborts with `ResourceExhausted`); a failed
critical Step aborts the remaining Steps; an environment-locked failure
pauses the Plan and auto-resumes when the lock clears within the remaining
budget, otherwise the Plan is marked Failed at the timeout. -/
def execSteps (cfg : Config) (env : ExecEnv) :
    Nat → List Step → ExecState → ExecOut
  | _, [], st =>
    { status := ReportStatus.success, results := [], finalState := st,
      events := [Event.planFinished] }
  | budget, s :: rest, st =>
    match runStep cfg env s st with
    | (StepVerdict.authLost att, st1, evs) =>
      { status := ReportStatus.authorizationExpired,
        results := [{ stepId := s.stepId, strategyUsed := none,
                      attempts := att, success := false }],
        finalState := st1,
        events := evs ++ [Event.planAborted AbortReason.authExpired] }
    | (StepVerdict.ok strat att, st1, evs) =>
      let st2 := { st1 with circuit := circuitSuccess st1.circuit }
      let out := execSteps cfg env budget rest st2
      { status := out.status,
        results := { stepId := s.stepId, strategyUsed := some strat,
                     attempts := att, success := true } :: out.results,
        finalState := out.finalState,
        events := evs ++ [Event.stepSucceeded s.stepId] ++ out.events }
    | (StepVerdict.allFailed att, st1, evs) =>
      let res : StepResult := { stepId := s.stepId, strategyUsed := none,
                                attempts := att, success := false }
      let st2 := { st1 with circuit := circuitFailure cfg st1.now st1.circuit }
      if st2.circuit.isOpen then
        { status := ReportStatus.resourceExhausted, results := [res], finalState := st2,
          events := evs ++ [Event.stepFailed s.stepId,
                            Event.planAborted AbortReason.circuitOpen] }
      else if s.critical then
        { status := ReportStatus.failed, results := [res], finalState := st2,
          events := evs ++ [Event.stepFailed s.stepId,
                            Event.planAborted AbortReason.stepFailedCritical] }
      else
        let out := execSteps cfg env budget rest st2
        { status := out.status, results := res :: out.results,
          finalState := out.finalState,
          events := evs ++ [Event.stepFailed s.stepId] ++ out.events }
    | (StepVerdict.locked att, st1, evs) =>
      match hc : findClear env.lockCleared st1.now budget with
      | some k =>
        let st2 := { st1 with now := st1.now + k + 1 }
        let out := execSteps cfg env (budget - (k + 1)) (s :: rest) st2
        { status := out.status, results := out.results,
          finalState := out.finalState,
          events := evs ++ [Event.planPaused, Event.planResumed] ++ out.events }
      | none =>
        { status := ReportStatus.failed,
          results := [{ stepId := s.stepId, strategyUsed := none,
                        attempts := att, success := false }],
          finalState := st1,
          events := evs ++ [Event.planPaused,
                            Event.planAborted AbortReason.pauseTimeout] }
termination_by budget steps st => (budget, steps.length)
decreasing_by
  · apply Prod.Lex.right
    simp
  · apply Prod.Lex.right
    simp
  · apply Prod.Lex.left
    have hlt : ∀ (b now k : Nat), findClear env.lockCleared now b = some k → k < b := by
      intro b
      induction b with
      | zero => intro now k h; simp [findClear] at h
      | succ n ih =>
        intro now k h
        by_cases hcl : env.lockCleared now = true
        · rw [findClear, if_pos hcl] at h
          cases h
          omega
        · rw [findClear, if_neg hcl] at h
          rcases Option.map_eq_some'.mp h with ⟨k2, hk2, hkk⟩
          have := ih (now + 1) k2 hk2
          omega
    have := hlt budget st1.now k hc
    omega

/-- Modelled from the spec: admit and run one Plan — the Executor never
receives a Plan whose PlanGuard verdict is rejected, and an open circuit
blocks new Plans until the cool-down elapses, after which the circuit is
reset (spec sections 3 and 4.3). -/
def startPlan (cfg : Config) (env : ExecEnv) (p : Plan) (st : ExecState) :
    Option ExecOut :=
  if (PlanGuard.validate cfg p).admitted = false then none
  else if st.circuit.isOpen = true ∧ st.now < st.circuit.openedAt + cfg.cooldownTicks then
    none
  else
    let st1 := if st.circuit.isOpen then { st with circuit := circuitSuccess st.circuit } else st
    some (execSteps cfg env cfg.pauseTimeout p.steps st1)

end Executor

/-! ## Definitions: ExecutionLogs grouped view
(src/ui/src/components/ExecutionLogs.js, `groupedData`, lines 43-86) -/

namespace Logs

/-- One entry of the `logs` array fetched from `/logs/recent`.  Optional
string fields model absent-or-falsy JavaScript fields as `none` or the empty
string; `success` is the truthiness of the entry's success field. -/
structure LogEntry where
  task_id : Option String
  plan_id : Option String
  task : Option String
  transcript : Option String
  strategy : Option String
  timestamp : Int
  success : Bool
deriving DecidableEq, Repr

/-- JavaScript truthiness of an optional string: absent and `""` are falsy. -/
def strTruthy : Option String → Option String
  | none => none
  | some s => if s = "" then none else some s

/-- `const taskId = log.task_id || log.plan_id || 'no-task'` (line 47). -/
def taskKeyOf (log : LogEntry) : String :=
  match strTruthy log.task_id with
  | some s => s
  | none =>
    match strTruthy log.plan_id with
    | some s => s
    | none => "no-task"

/-- `const planId = log.plan_id || 'no-plan'` (line 48). -/
def planKeyOf (log : LogEntry) : String :=
  match strTruthy log.plan_id with
  | some s => s
  | none => "no-plan"

/-- `name: log.task || log.transcript || 'Unknown Task'` (line 53). -/
def nameOf (log : LogEntry) : String :=
  match strTruthy log.task with
  | some s => s
  | none =>
    match strTruthy log.transcript with
    | some s => s
    | none => "Unknown Task"

/-- A plan group of the grouped view: `{id, steps, success, strategy}`
(lines 63-69). -/
structure PlanGroup where
  id : String
  strategy : Option String
  steps : List LogEntry
  success : Bool
deriving DecidableEq, Repr

/-- A task group of the grouped view:
`{id, name, timestamp, plans, success, totalSteps}` (lines 50-58). -/
structure TaskGroup where
  id : String
  name : String
  timestamp : Int
  plans : List PlanGroup
  success : Bool
  totalSteps : Nat
deriving DecidableEq, Repr

/-- `plan.steps.push(log)` followed by `if (!log.success) plan.success =
false` (lines 73, 76-77). -/
def pushLog (p : PlanGroup) (log : LogEntry) : PlanGroup :=
  { p with steps := p.steps ++ [log], success := p.success && log.success }

/-- Find the plan group keyed `pid` inside a task (creating it with
`success: true` as on lines 63-69 if absent) and push the log into it. -/
def addToPlans : List PlanGroup → String → LogEntry → List PlanGroup
  | [], pid, log =>
    [pushLog { id := pid, strategy := log.strategy, steps := [], success := true } log]
  | p :: rest, pid, log =>
    if p.id = pid then pushLog p log :: rest
    else p :: addToPlans rest pid log

/-- The freshly created task group for a log whose task key is not yet in
the map (lines 50-58), with the log already pushed into its plan. -/
def newTask (log : LogEntry) : TaskGroup :=
  { id := taskKeyOf log, name := nameOf log, timestamp := log.timestamp,
    plans := addToPlans [] (planKeyOf log) log,
    success := true && log.success, totalSteps := 1 }

/-- Push one log into an existing task group (lines 61-79): route the log to
its plan, bump `totalSteps`, and clear the success flag when the log entry
failed. -/
def updateTask (t : TaskGroup) (log : LogEntry) : TaskGroup :=
  { t with plans := addToPlans t.plans (planKeyOf log) log,
           success := t.success && log.success,
           totalSteps := t.totalSteps + 1 }

/-- Process one log entry into the task map (the body of
`logs.forEach(log => ...)`, lines 46-80): find the task group keyed by the
log's task key and update it, or append a fresh group. -/
def addLog : List TaskGroup → LogEntry → List TaskGroup
  | [], log => [newTask log]
  | t :: rest, log =>
    if t.id = taskKeyOf log then updateTask t log :: rest
    else t :: addLog rest log

/-- `groupedData` (lines 43-86): group the logs by task and plan, then sort
the task groups by timestamp, newest first (line 85). -/
def groupedData (logs : List LogEntry) : List TaskGroup :=
  sortBy (fun a b => b.timestamp ≤ a.timestamp) (logs.foldl addLog [])

end Logs

/-! ## Definitions: concrete fixtures used by witnesses -/

/-- A benign environment in which every attempt succeeds. -/
def trivialEnv : Executor.ExecEnv :=
  { attemptRes := fun _ _ => Executor.AttemptOutcome.ok,
    verifyOk := fun _ _ => true,
    remediateOk := fun _ _ => true,
    lockCleared := fun _ => true }

/-- An adversarial environment in which every attempt fails with an unknown
class and nothing remediates or clears. -/
def failEnv : Executor.ExecEnv :=
  { attemptRes := fun _ _ => Executor.AttemptOutcome.fail Executor.FailureClass.unknown,
    verifyOk := fun _ _ => false,
    remediateOk := fun _ _ => false,
    lockCleared := fun _ => false }

/-- An environment whose target is locked up to tick 5 and fully
cooperative afterwards. -/
def lockedEnv : Executor.ExecEnv :=
  { attemptRes := fun t _ =>
      if t < 5 then Executor.AttemptOutcome.fail Executor.FailureClass.environmentLocked
      else Executor.AttemptOutcome.ok,
    verifyOk := fun _ _ => true,
    remediateOk := fun _ _ => false,
    lockCleared := fun t => 5 ≤ t }

/-- An environment whose target stays locked forever. -/
def foreverLockedEnv : Executor.ExecEnv :=
  { attemptRes := fun _ _ =>
      Executor.AttemptOutcome.fail Executor.FailureClass.environmentLocked,
    verifyOk := fun _ _ => true,
    remediateOk := fun _ _ => false,
    lockCleared := fun _ => false }

/-- An environment in which strategy "A" always fails (unknown class) and
strategy "B" always succeeds with the Verifier confirming. -/
def abEnv : Executor.ExecEnv :=
  { attemptRes := fun _ c =>
      if c = "B" then Executor.AttemptOutcome.ok
      else Executor.AttemptOutcome.fail Executor.FailureClass.unknown,
    verifyOk := fun _ _ => true,
    remediateOk := fun _ _ => false,
    lockCleared := fun _ => true }

/-- The executor state at startup: no session, closed circuit, no stats. -/
def initState : Executor.ExecState :=
  { auth := { current := none, persisted := none, backupFile := none },
    now := 0,
    circuit := { consecutiveFailures := 0, isOpen := false, openedAt := 0 },
    stats := [] }

/-- A long-lived session granted at tick 0 with a 1000-tick TTL. -/
def activeSession : SessionAuthority.SessionRec :=
  SessionAuthority.grantRec 0 1000 ["notepad"] [] false 1

/-- An executor state holding the long-lived session. -/
def activeState : Executor.ExecState :=
  { auth := { current := some activeSession, persisted := some activeSession,
              backupFile := none },
    now := 0,
    circuit := { consecutiveFailures := 0, isOpen := false, openedAt := 0 },
    stats := [] }

/-- A harmless critical step used to build concrete plans. -/
def dummyStep : Step :=
  { stepId := 0, tool := "type_text", params := [], description := "type", critical := true }

/-- A harmless non-critical step (its failure lets the Plan continue). -/
def softStep : Step :=
  { stepId := 1, tool := "type_text", params := [], description := "soft", critical := false }

/-- A 51-step plan, one past the documented 50-step maximum. -/
def bigPlan : Plan :=
  { planId := 1, task := "big", steps := List.replicate 51 dummyStep }

/-- A step invoking a tool outside the allow-set. -/
def shellStep : Step :=
  { stepId := 7, tool := "shell", params := [("cmd", "rm -rf /")],
    description := "shell", critical := true }

/-- A plan mixing an allowed step with a disallowed one. -/
def mixedPlan : Plan :=
  { planId := 2, task := "mixed", steps := [dummyStep, shellStep] }

/-- A two-candidate configuration ranking strategy "A" before "B". -/
def abConfig : Config :=
  { defaultConfig with defaultOrder := ["A", "B"] }

/-- A successful step log for task T1, plan P1. -/
def okLog : Logs.LogEntry :=
  { task_id := some "T1", plan_id := some "P1", task := some "open notepad",
    transcript := none, strategy := some "uia", timestamp := 10, success := true }

/-- A failed step log for the same task and plan. -/
def failLog : Logs.LogEntry :=
  { task_id := some "T1", plan_id := some "P1", task := some "open notepad",
    transcript := none, strategy := some "uia", timestamp := 11, success := false }

/-- A successful step log for a second task. -/
def otherLog : Logs.LogEntry :=
  { task_id := some "T2", plan_id := some "P2", task := some "type text",
    transcript := none, strategy := some "ocr", timestamp := 12, success := true }

/-- The task group that the grouped view computes for task T1 from the three
log fixtures: one successful and one failed step in plan P1. -/
def t1Group : Logs.TaskGroup :=
  { id := "T1", name := "open notepad", timestamp := 10,
    plans := [{ id := "P1", strategy := some "uia",
                steps := [okLog, failLog], success := false }],
    success := false, totalSteps := 2 }

/-! ## Theorems: sorting helper -/

theorem mem_insertSorted {α : Type} (le : α → α → Bool) (x a : α) :
    ∀ l : List α, a ∈ insertSorted le x l ↔ a = x ∨ a ∈ l := by
  intro l
  induction l with
  | nil => simp [insertSorted]
  | cons y ys ih =>
    by_cases h : le x y = true
    · rw [insertSorted, if_pos h]
      simp
    · rw [insertSorted, if_neg h]
      simp only [List.mem_cons, ih]
      tauto

theorem mem_sortBy {α : Type} (le : α → α → Bool) (a : α) :
    ∀ l : List α, a ∈ sortBy le l ↔ a ∈ l := by
  intro l
  induction l with
  | nil => simp [sortBy]
  | cons x xs ih =>
    rw [sortBy, mem_insertSorted]
    simp only [List.mem_cons, ih]

theorem length_insertSorted {α : Type} (le : α → α → Bool) (x : α) :
    ∀ l : List α, (insertSorted le x l).length = l.length + 1 := by
  intro l
  induction l with
  | nil => rfl
  | cons y ys ih =>
    by_cases h : le x y = true
    · rw [insertSorted, if_pos h]
      simp
    · rw [insertSorted, if_neg h]
      simp [ih]

theorem length_sortBy {α : Type} (le : α → α → Bool) :
    ∀ l : List α, (sortBy le l).length = l.length := by
  intro l
  induction l with
  | nil => rfl
  | cons x xs ih => simp [sortBy, length_insertSorted, ih]

/-! ## Theorems: Electron backend watchdog (claim C9) -/

namespace Watchdog

theorem runCloses_spawn_bound :
    ∀ (codes : List Int) (r : Nat),
      spawnCount (runCloses codes r).2 ≤ MAX_RESTARTS - r := by
  intro codes
  induction codes with
  | nil => intro r; simp [runCloses, spawnCount]
  | cons c cs ih =>
    intro r
    by_cases hc : c = 0
    · have h1 := ih r
      simp [runCloses, onBackendClose, hc, spawnCount]
      omega
    · by_cases hr : r < MAX_RESTARTS
      · have h1 := ih (r + 1)
        simp [runCloses, onBackendClose, hc, hr, spawnCount]
        simp only [MAX_RESTARTS] at *
        omega
      · have h1 := ih r
        simp [runCloses, onBackendClose, hc, hr, spawnCount]
        omega

/-- C9: In the Electron shell's backend watchdog, for every sequence of
backend-process exits with nonzero code and no intervening successful health
check, the backend is respawned at most `MAX_RESTARTS = 3` times; a
successful health check resets the counter to 0; and on the crash that
follows the third restart the recovery dialog is shown instead of another
spawn. -/
theorem c9_backend_watchdog :
    MAX_RESTARTS = 3 ∧
    (∀ codes : List Int,
        spawnCount (runCloses codes 0).2 ≤ MAX_RESTARTS) ∧
    (∀ r : Nat, onHealthCheckOk r = 0) ∧
    (∀ c1 c2 c3 c4 : Int, c1 ≠ 0 → c2 ≠ 0 → c3 ≠ 0 → c4 ≠ 0 →
        (runCloses [c1, c2, c3, c4] 0).2 =
          [WatchAction.spawnBackend, WatchAction.spawnBackend,
           WatchAction.spawnBackend, WatchAction.showRecovery]) := by
  refine ⟨rfl, ?_, fun r => rfl, ?_⟩
  · intro codes
    have h := runCloses_spawn_bound codes 0
    simpa using h
  · intro c1 c2 c3 c4 h1 h2 h3 h4
    simp [runCloses, onBackendClose, h1, h2, h3, h4, MAX_RESTARTS]

/-- Witness for C9: four consecutive crashes with exit code 1 produce exactly
three respawns followed by the recovery dialog. -/
theorem c9_backend_watchdog_witness :
    (1 : Int) ≠ 0 ∧
    (runCloses [1, 1, 1, 1] 0).2 =
      [WatchAction.spawnBackend, WatchAction.spawnBackend,
       WatchAction.spawnBackend, WatchAction.showRecovery] :=
  ⟨by decide, c9_backend_watchdog.2.2.2 1 1 1 1 (by decide) (by decide) (by decide) (by decide)⟩

end Watchdog

/-! ## Theorems: SessionAuthority (claims C5 and C6) -/

namespace SessionAuthority

/-- C5: Calling `revoke()` while the authority is already in the `NoSession`
state is a no-op: it is total (raises nothing) and leaves the in-memory
state, the persisted record and the backup copy all unchanged. -/
theorem c5_revoke_nosession_noop (st : AuthState) (h : st.current = none) :
    revoke st = st := by
  unfold revoke
  rw [h]

/-- Witness for C5: revoking in the empty `NoSession` state leaves
everything exactly as it was. -/
theorem c5_revoke_nosession_noop_witness :
    revoke { current := none, persisted := none, backupFile := none } =
      { current := none, persisted := none, backupFile := none } :=
  c5_revoke_nosession_noop { current := none, persisted := none, backupFile := none } rfl

/-- C6: The SessionAuthority state machine admits only
`NoSession --grant--> Active(expires_at)` and
`Active --[deadline elapsed | revoke]--> NoSession`:
(1) a grant enters Active with `expires_at = now + ttl`;
(2) `check` in NoSession stays in NoSession and reports false;
(3) `check` strictly before the deadline reports true and changes nothing;
(4) `check` never invents a session — it either leaves the state unchanged
    or clears it to NoSession;
(5) `revoke` always lands in NoSession; and
(6) every `check` made at or after `expires_at` of a grant returns false and
    leaves the authority in NoSession (lazy expiry evaluated on read),
    for every grant and every later read time. -/
theorem c6_session_state_machine :
    (∀ now ttl apps folders net sid st,
        (grant now ttl apps folders net sid st).current =
          some (grantRec now ttl apps folders net sid) ∧
        (grantRec now ttl apps folders net sid).expiresAt = now + ttl) ∧
    (∀ t st, st.current = none → check t st = (false, st)) ∧
    (∀ t st s, st.current = some s → t < s.expiresAt → check t st = (true, st)) ∧
    (∀ t st, (check t st).2 = st ∨ (check t st).2.current = none) ∧
    (∀ st, (revoke st).current = none) ∧
    (∀ now ttl apps folders net sid st t, now + ttl ≤ t →
        check t (grant now ttl apps folders net sid st) =
          (false, { current := none, persisted := none,
                    backupFile := some (grantRec now ttl apps folders net sid) })) := by
  refine ⟨fun now ttl apps folders net sid st => ⟨rfl, rfl⟩, ?_, ?_, ?_, ?_, ?_⟩
  · intro t st h
    unfold check
    rw [h]
  · intro t st s h ht
    unfold check
    rw [h]
    simp [ht]
  · intro t st
    unfold check
    match h : st.current with
    | none => left; rfl
    | some s =>
      by_cases ht : t < s.expiresAt
      · left; simp [ht]
      · right; simp [ht]
  · intro st
    unfold revoke
    match h : st.current with
    | none => exact h
    | some s => rfl
  · intro now ttl apps folders net sid st t ht
    unfold check grant
    simp only
    have h2 : ¬ t < (grantRec now ttl apps folders net sid).expiresAt := by
      simp only [grantRec]
      omega
    simp [h2]

/-- Witness for C6: a session granted at tick 10 with a 30-tick TTL, checked
at tick 40, reports false and the authority is back in NoSession. -/
theorem c6_session_state_machine_witness :
    check 40 (grant 10 30 ["notepad"] ["docs"] false 1
        { current := none, persisted := none, backupFile := none }) =
      (false, { current := none, persisted := none,
                backupFile := some (grantRec 10 30 ["notepad"] ["docs"] false 1) }) :=
  c6_session_state_machine.2.2.2.2.2 10 30 ["notepad"] ["docs"] false 1
    { current := none, persisted := none, backupFile := none } 40 (by decide)

end SessionAuthority

/-! ## Theorems: PlanGuard (claims C2 and C4) -/

theorem isEmpty_false_of_mem {α : Type} {l : List α} {x : α} (h : x ∈ l) :
    l.isEmpty = false := by
  cases l with
  | nil => cases h
  | cons a as => rfl

/-- C2: For every Plan whose step count exceeds the configured maximum
(50 in the default configuration), `PlanGuard.validate` returns
`admitted = false` with the size violation in the violations list, and the
Executor is never given such a Plan to run. -/
theorem c2_planguard_size_cap (cfg : Config) (env : Executor.ExecEnv) (p : Plan)
    (st : Executor.ExecState) (h : cfg.maxSteps < p.steps.length) :
    defaultConfig.maxSteps = 50 ∧
    (PlanGuard.validate cfg p).admitted = false ∧
    "plan exceeds maximum step count" ∈ (PlanGuard.validate cfg p).violations ∧
    Executor.startPlan cfg env p st = none := by
  have hsz : PlanGuard.sizeViolations cfg p = ["plan exceeds maximum step count"] := by
    unfold PlanGuard.sizeViolations
    rw [if_pos h]
  have hmem : "plan exceeds maximum step count" ∈ (PlanGuard.validate cfg p).violations := by
    unfold PlanGuard.validate
    simp only [hsz]
    exact List.mem_append_left _ (List.mem_singleton.mpr rfl)
  have hadm : (PlanGuard.validate cfg p).admitted = false := by
    unfold PlanGuard.validate at hmem ⊢
    exact isEmpty_false_of_mem hmem
  refine ⟨rfl, hadm, hmem, ?_⟩
  unfold Executor.startPlan
  rw [if_pos hadm]

/-- Witness for C2: the 51-step plan is rejected with the size violation and
the Executor never receives it. -/
theorem c2_planguard_size_cap_witness :
    defaultConfig.maxSteps < bigPlan.steps.length ∧
    (PlanGuard.validate defaultConfig bigPlan).admitted = false ∧
    Executor.startPlan defaultConfig trivialEnv bigPlan initState = none :=
  ⟨by decide,
   (c2_planguard_size_cap defaultConfig trivialEnv bigPlan initState (by decide)).2.1,
   (c2_planguard_size_cap defaultConfig trivialEnv bigPlan initState (by decide)).2.2.2⟩

/-- C4: `PlanGuard.validate` runs its checks against every Step without
short-circuiting: the returned violations list is the concatenation of the
size check and the per-Step checks of the whole Plan, so every violated rule
of every Step appears in it (and any violation makes `admitted` false). -/
theorem c4_planguard_no_short_circuit (cfg : Config) (p : Plan) (s : Step)
    (hs : s ∈ p.steps) (v : String) (hv : v ∈ PlanGuard.stepViolations cfg s) :
    (PlanGuard.validate cfg p).violations =
      PlanGuard.sizeViolations cfg p ++ p.steps.flatMap (PlanGuard.stepViolations cfg) ∧
    v ∈ (PlanGuard.validate cfg p).violations ∧
    (PlanGuard.validate cfg p).admitted = false := by
  have hmem : v ∈ (PlanGuard.validate cfg p).violations := by
    unfold PlanGuard.validate
    exact List.mem_append_right _ (List.mem_flatMap.mpr ⟨s, hs, hv⟩)
  refine ⟨rfl, hmem, ?_⟩
  unfold PlanGuard.validate at hmem ⊢
  exact isEmpty_false_of_mem hmem

/-- Witness for C4: the disallowed tool of the second step of a two-step
plan is reported in the plan-level violations list and the plan is not
admitted. -/
theorem c4_planguard_no_short_circuit_witness :
    shellStep ∈ mixedPlan.steps ∧
    "tool not allowed: shell" ∈ PlanGuard.stepViolations defaultConfig shellStep ∧
    "tool not allowed: shell" ∈ (PlanGuard.validate defaultConfig mixedPlan).violations ∧
    (PlanGuard.validate defaultConfig mixedPlan).admitted = false :=
  ⟨by decide, by decide,
   (c4_planguard_no_short_circuit defaultConfig mixedPlan shellStep (by decide)
      "tool not allowed: shell" (by decide)).2.1,
   (c4_planguard_no_short_circuit defaultConfig mixedPlan shellStep (by decide)
      "tool not allowed: shell" (by decide)).2.2⟩

/-! ## Theorems: executor event-stream structure -/

namespace Executor

open SessionAuthority

theorem findClear_lt (clears : Nat → Bool) :
    ∀ (b : Nat) (now k : Nat), findClear clears now b = some k → k < b := by
  intro b
  induction b with
  | zero => intro now k h; simp [findClear] at h
  | succ n ih =>
    intro now k h
    by_cases hc : clears now = true
    · rw [findClear, if_pos hc] at h
      cases h
      omega
    · rw [findClear, if_neg hc] at h
      rcases Option.map_eq_some'.mp h with ⟨k2, hk2, hkk⟩
      have := ih (now + 1) k2 hk2
      omega

theorem length_rank (cfg : Config) (stats : List StrategyStat)
    (app tool : String) :
    (rank cfg stats app tool).length = cfg.defaultOrder.length := by
  unfold rank
  by_cases h : cfg.defaultOrder.all
      (fun n => decide ((statFor stats app n).attemptCount < cfg.minSamples)) = true
  · rw [if_pos h]
  · rw [if_neg h]
    rw [List.length_map, length_sortBy, List.length_map]

theorem abortFree_nil : abortFree [] := by
  intro r h
  cases h

theorem abortFree_cons {e : Event} {l : List Event}
    (h : abortFree (e :: l)) : abortFree l :=
  fun r hr => h r (List.mem_cons_of_mem e hr)

theorem abortFree_append {l1 l2 : List Event}
    (h1 : abortFree l1) (h2 : abortFree l2) : abortFree (l1 ++ l2) := by
  intro r hr
  rcases List.mem_append.mp hr with h | h
  · exact h1 r h
  · exact h2 r h

theorem attemptOnce_abortFree (env : ExecEnv) (s : Step) (c : String)
    (st : ExecState) : abortFree (attemptOnce env s c st).2.2 := by
  unfold attemptOnce
  rcases hch : check st.now st.auth with ⟨b, a2⟩
  cases b
  · intro r hr
    simp at hr
  · rcases ho : env.attemptRes st.now c with _ | cls
    · by_cases hv : env.verifyOk st.now c = true
      · simp only [ho, hv]
        intro r hr
        simp at hr
      · simp only [ho, eq_false_of_ne_true hv]
        intro r hr
        simp at hr
    · simp only [ho]
      intro r hr
      simp at hr

theorem runCandidates_abortFree (env : ExecEnv) (s : Step) :
    ∀ (cands : List String) (st : ExecState) (att : Nat) (evs : List Event),
      abortFree evs → abortFree (runCandidates env s cands st att evs).2.2 := by
  intro cands
  induction cands with
  | nil => intro st att evs h; exact h
  | cons c cs ih =>
    intro st att evs hevs
    have hao := attemptOnce_abortFree env s c st
    rcases h1 : attemptOnce env s c st with ⟨ar, st1, evs1⟩
    rw [h1] at hao
    cases ar with
    | authLost =>
      simp only [runCandidates, h1]
      exact abortFree_append hevs hao
    | succeeded =>
      simp only [runCandidates, h1]
      exact abortFree_append hevs hao
    | failedWith cls =>
      by_cases hcl : cls = FailureClass.environmentLocked
      · simp only [runCandidates, h1, if_pos hcl]
        exact abortFree_append hevs hao
      · by_cases hrm : (recoverable cls && env.remediateOk st1.now cls) = true
        · have hao2 := attemptOnce_abortFree env s c { st1 with now := st1.now + 1 }
          rcases h2 : attemptOnce env s c { st1 with now := st1.now + 1 } with ⟨ar2, st2, evs2⟩
          rw [h2] at hao2
          cases ar2 with
          | authLost =>
            simp only [runCandidates, h1, if_neg hcl, hrm, if_true, h2]
            exact abortFree_append (abortFree_append hevs hao) hao2
          | succeeded =>
            simp only [runCandidates, h1, if_neg hcl, hrm, if_true, h2]
            exact abortFree_append (abortFree_append hevs hao) hao2
          | failedWith cls2 =>
            by_cases hcl2 : cls2 = FailureClass.environmentLocked
            · simp only [runCandidates, h1, if_neg hcl, hrm, if_true, h2, if_pos hcl2]
              exact abortFree_append (abortFree_append hevs hao) hao2
            · simp only [runCandidates, h1, if_neg hcl, hrm, if_true, h2, if_neg hcl2]
              apply ih
              apply abortFree_append (abortFree_append (abortFree_append hevs hao) hao2)
              intro r hr
              simp at hr
        · simp only [runCandidates, h1, if_neg hcl, hrm]
          simp only [Bool.false_eq_true, if_false]
          apply ih
          apply abortFree_append (abortFree_append hevs hao)
          intro r hr
          simp at hr

theorem runStep_abortFree (cfg : Config) (env : ExecEnv) (s : Step)
    (st : ExecState) : abortFree (runStep cfg env s st).2.2 := by
  unfold runStep
  simp only
  have h := runCandidates_abortFree env s (rank cfg st.stats (appKeyOf s) s.tool)
    st 0 [] abortFree_nil
  intro r hr
  rcases List.mem_cons.mp hr with h1 | h1
  · cases h1
  · exact h r h1

/-- Every run of the executor produces an abort-free event stream, possibly
followed by a single terminal plan-abort event. -/
theorem execSteps_shape (cfg : Config) (env : ExecEnv) :
    ∀ (budget : Nat) (steps : List Step) (st : ExecState),
      ∃ l, abortFree l ∧
        ((execSteps cfg env budget steps st).events = l ∨
         ∃ r, (execSteps cfg env budget steps st).events = l ++ [Event.planAborted r]) := by
  intro budget
  induction budget using Nat.strong_induction_on with
  | _ budget ihb =>
    intro steps
    induction steps with
    | nil =>
      intro st
      refine ⟨[Event.planFinished], ?_, Or.inl ?_⟩
      · intro r hr; simp at hr
      · rw [execSteps.eq_def]
    | cons s rest ihs =>
      intro st
      have hsf := runStep_abortFree cfg env s st
      rcases hrs : runStep cfg env s st with ⟨v, st1, evs⟩
      rw [hrs] at hsf
      cases v with
      | authLost att =>
        refine ⟨evs, hsf, Or.inr ⟨AbortReason.authExpired, ?_⟩⟩
        rw [execSteps.eq_def]
        simp [hrs]
      | ok strat att =>
        rcases ihs { st1 with circuit := circuitSuccess st1.circuit } with ⟨l, hl, hcase⟩
        refine ⟨evs ++ [Event.stepSucceeded s.stepId] ++ l, ?_, ?_⟩
        · refine abortFree_append (abortFree_append hsf ?_) hl
          intro r hr; simp at hr
        · rcases hcase with h | ⟨r, h⟩
          · left
            rw [execSteps.eq_def]
            simp [hrs, h]
          · right
            refine ⟨r, ?_⟩
            rw [execSteps.eq_def]
            simp [hrs, h]
      | allFailed att =>
        by_cases hop : (circuitFailure cfg st1.now st1.circuit).isOpen = true
        · refine ⟨evs ++ [Event.stepFailed s.stepId], ?_, Or.inr ⟨AbortReason.circuitOpen, ?_⟩⟩
          · refine abortFree_append hsf ?_
            intro r hr; simp at hr
          · rw [execSteps.eq_def]
            simp [hrs, hop]
        · by_cases hcr : s.critical = true
          · refine ⟨evs ++ [Event.stepFailed s.stepId], ?_,
              Or.inr ⟨AbortReason.stepFailedCritical, ?_⟩⟩
            · refine abortFree_append hsf ?_
              intro r hr; simp at hr
            · rw [execSteps.eq_def]
              simp [hrs, hop, hcr]
          · rcases ihs { st1 with circuit := circuitFailure cfg st1.now st1.circuit } with
              ⟨l, hl, hcase⟩
            refine ⟨evs ++ [Event.stepFailed s.stepId] ++ l, ?_, ?_⟩
            · refine abortFree_append (abortFree_append hsf ?_) hl
              intro r hr; simp at hr
            · rcases hcase with h | ⟨r, h⟩
              · left
                rw [execSteps.eq_def]
                simp [hrs, hop, hcr, h]
              · right
                refine ⟨r, ?_⟩
                rw [execSteps.eq_def]
                simp [hrs, hop, hcr, h]
      | locked att =>
        rcases hfc : findClear env.lockCleared st1.now budget with _ | k
        · refine ⟨evs ++ [Event.planPaused], ?_, Or.inr ⟨AbortReason.pauseTimeout, ?_⟩⟩
          · refine abortFree_append hsf ?_
            intro r hr; simp at hr
          · rw [execSteps.eq_def]
            simp only [hrs]
            split
            · next k2 heq => rw [hfc] at heq; exact Option.noConfusion heq
            · simp
        · have hklt : k < budget := findClear_lt env.lockCleared budget st1.now k hfc
          rcases ihb (budget - (k + 1)) (by omega) (s :: rest)
            { st1 with now := st1.now + k + 1 } with ⟨l, hl, hcase⟩
          refine ⟨evs ++ [Event.planPaused, Event.planResumed] ++ l, ?_, ?_⟩
          · refine abortFree_append (abortFree_append hsf ?_) hl
            intro r hr; simp at hr
          · rcases hcase with h | ⟨r, h⟩
            · left
              rw [execSteps.eq_def]
              simp only [hrs]
              split
              · next k2 heq =>
                rw [hfc] at heq
                injection heq with hk
                subst hk
                simp [h]
              · next heq => rw [hfc] at heq; exact Option.noConfusion heq
            · right
              refine ⟨r, ?_⟩
              rw [execSteps.eq_def]
              simp only [hrs]
              split
              · next k2 heq =>
                rw [hfc] at heq
                injection heq with hk
                subst hk
                simp [h]
              · next heq => rw [hfc] at heq; exact Option.noConfusion heq

/-- In an abort-free list followed by one abort event, any decomposition
around an abort event puts that abort event last. -/
theorem abort_is_last {l : List Event} (hl : abortFree l) :
    ∀ (l1 l2 : List Event) (r r2 : AbortReason),
      l1 ++ Event.planAborted r :: l2 = l ++ [Event.planAborted r2] → l2 = [] := by
  induction l with
  | nil =>
    intro l1 l2 r r2 h
    cases l1 with
    | nil =>
      simp only [List.nil_append] at h
      exact (List.cons_eq_cons.mp h).2
    | cons x xs =>
      simp only [List.cons_append, List.nil_append] at h
      have h2 := (List.cons_eq_cons.mp h).2
      exact absurd h2 (by simp)
  | cons y ys ih =>
    intro l1 l2 r r2 h
    cases l1 with
    | nil =>
      simp only [List.nil_append, List.cons_append] at h
      have h1 := (List.cons_eq_cons.mp h).1
      exact absurd (h1 ▸ List.mem_cons_self y ys) (hl r)
    | cons x xs =>
      simp only [List.cons_append] at h
      exact ih (abortFree_cons hl) xs l2 r r2 (List.cons_eq_cons.mp h).2

/-- C1: Whenever `SessionAuthority.check()` returns false at a Step
boundary, the entire execution aborts immediately and no further Strategy is
invoked.  First conjunct: in every event stream the executor emits, nothing
at all follows a plan-abort event (so in particular no Strategy invocation
follows the authorization abort), for every Plan and every point between
Steps.  Second conjunct: from any state whose session check is false, with
at least one candidate Strategy configured, the executor aborts with
`AuthorizationExpired` having emitted no Strategy attempt — only the
step-started marker and the abort event. -/
theorem c1_session_gate :
    (∀ (cfg : Config) (env : ExecEnv) (budget : Nat) (steps : List Step)
        (st : ExecState) (l1 l2 : List Event) (r : AbortReason),
        (execSteps cfg env budget steps st).events = l1 ++ Event.planAborted r :: l2 →
        l2 = []) ∧
    (∀ (cfg : Config) (env : ExecEnv) (budget : Nat) (s : Step) (rest : List Step)
        (st : ExecState),
        cfg.defaultOrder ≠ [] →
        (check st.now st.auth).1 = false →
        execSteps cfg env budget (s :: rest) st =
          { status := ReportStatus.authorizationExpired,
            results := [{ stepId := s.stepId, strategyUsed := none,
                          attempts := 0, success := false }],
            finalState := { st with auth := (check st.now st.auth).2 },
            events := [Event.stepStarted s.stepId,
                       Event.planAborted AbortReason.authExpired] }) := by
  constructor
  · intro cfg env budget steps st l1 l2 r heq
    rcases execSteps_shape cfg env budget steps st with ⟨l, hl, hcase⟩
    rcases hcase with h | ⟨r2, h⟩
    · have hll : l = l1 ++ Event.planAborted r :: l2 := h.symm.trans heq
      have hin : Event.planAborted r ∈ l := by
        rw [hll]
        exact List.mem_append_right _ (List.mem_cons_self _ _)
      exact absurd hin (hl r)
    · exact abort_is_last hl l1 l2 r r2 (heq.symm.trans h)
  · intro cfg env budget s rest st hord hchk
    rcases hch : check st.now st.auth with ⟨b, a2⟩
    rw [hch] at hchk
    simp only at hchk
    subst hchk
    have hcand : ∃ c cs, rank cfg st.stats (appKeyOf s) s.tool = c :: cs := by
      have hlen := length_rank cfg st.stats (appKeyOf s) s.tool
      cases hr : rank cfg st.stats (appKeyOf s) s.tool with
      | nil =>
        rw [hr] at hlen
        exact absurd (List.length_eq_zero.mp hlen.symm) hord
      | cons c cs => exact ⟨c, cs, rfl⟩
    rcases hcand with ⟨c, cs, hr⟩
    have hao : attemptOnce env s c st = (AttemptR.authLost, { st with auth := a2 }, []) := by
      unfold attemptOnce
      rw [hch]
    have hrsv : runStep cfg env s st =
        (StepVerdict.authLost 0, { st with auth := a2 }, [Event.stepStarted s.stepId]) := by
      simp only [runStep, hr]
      simp only [runCandidates, hao]
      rfl
    rw [execSteps.eq_def]
    simp [hrsv, hch]

/-- Witness for C1: from the startup state (no session granted) the default
configuration aborts a one-step plan with `AuthorizationExpired` before any
Strategy attempt. -/
theorem c1_session_gate_witness :
    defaultConfig.defaultOrder ≠ [] ∧
    (check initState.now initState.auth).1 = false ∧
    execSteps defaultConfig trivialEnv 30 [dummyStep] initState =
      { status := ReportStatus.authorizationExpired,
        results := [{ stepId := dummyStep.stepId, strategyUsed := none,
                      attempts := 0, success := false }],
        finalState := { initState with auth := (check initState.now initState.auth).2 },
        events := [Event.stepStarted dummyStep.stepId,
                   Event.planAborted AbortReason.authExpired] } :=
  ⟨by decide, by decide,
   c1_session_gate.2 defaultConfig trivialEnv 30 dummyStep [] initState
     (by decide) (by decide)⟩

theorem runCandidates_allfail (env : ExecEnv) (s : Step)
    (hfail : ∀ t c, env.attemptRes t c = AttemptOutcome.fail FailureClass.unknown) :
    ∀ (cands : List String) (st : ExecState) (att : Nat) (evs : List Event)
      (sr : SessionRec),
      st.auth.current = some sr →
      st.now + cands.length ≤ sr.expiresAt →
      ∃ st2 evs2,
        runCandidates env s cands st att evs =
          (StepVerdict.allFailed (att + cands.length), st2, evs ++ evs2) ∧
        st2.now = st.now + cands.length ∧
        st2.auth = st.auth ∧ st2.circuit = st.circuit := by
  intro cands
  induction cands with
  | nil =>
    intro st att evs sr hcur hexp
    exact ⟨st, [], by simp [runCandidates], by simp, rfl, rfl⟩
  | cons c cs ih =>
    intro st att evs sr hcur hexp
    have hlt : st.now < sr.expiresAt := by
      simp only [List.length_cons] at hexp
      omega
    have hch : check st.now st.auth = (true, st.auth) := by
      unfold check
      rw [hcur]
      simp [hlt]
    have hao : attemptOnce env s c st =
        (AttemptR.failedWith FailureClass.unknown,
         { st with stats := recordStat st.stats (appKeyOf s) c false, now := st.now + 1 },
         [Event.strategyAttempt s.stepId c]) := by
      unfold attemptOnce
      rw [hch]
      simp only [hfail st.now c]
    have hmid : ({ st with stats := recordStat st.stats (appKeyOf s) c false, now := st.now + 1 } : ExecState).auth.current = some sr := hcur
    have hexp2 : ({ st with stats := recordStat st.stats (appKeyOf s) c false, now := st.now + 1 } : ExecState).now + cs.length ≤ sr.expiresAt := by
      simp only [List.length_cons] at hexp
      simp only
      omega
    rcases ih { st with stats := recordStat st.stats (appKeyOf s) c false, now := st.now + 1 }
        (att + 1) (evs ++ [Event.strategyAttempt s.stepId c] ++
          [Event.stepStrategySwitch s.stepId c]) sr hmid hexp2 with
      ⟨st2, evs2, hrun, hnow, hauth, hcirc⟩
    refine ⟨st2, [Event.strategyAttempt s.stepId c] ++ [Event.stepStrategySwitch s.stepId c]
        ++ evs2, ?_, ?_, ?_, ?_⟩
    · simp only [runCandidates, hao]
      have hcls : (FailureClass.unknown = FailureClass.environmentLocked) = False := by
        simp
      rw [if_neg (by simp)]
      rw [if_neg (by simp [recoverable])]
      rw [hrun]
      simp [List.append_assoc]
      omega
    · rw [hnow]
      simp only [List.length_cons]
      omega
    · exact hauth
    · exact hcirc

theorem runStep_allfail (cfg : Config) (env : ExecEnv) (s : Step) (st : ExecState)
    (sr : SessionRec)
    (hfail : ∀ t c, env.attemptRes t c = AttemptOutcome.fail FailureClass.unknown)
    (hcur : st.auth.current = some sr)
    (hexp : st.now + cfg.defaultOrder.length ≤ sr.expiresAt) :
    ∃ st2 evs2,
      runStep cfg env s st = (StepVerdict.allFailed cfg.defaultOrder.length, st2, evs2) ∧
      st2.now = st.now + cfg.defaultOrder.length ∧
      st2.auth = st.auth ∧ st2.circuit = st.circuit := by
  have hlen := length_rank cfg st.stats (appKeyOf s) s.tool
  have hexp2 : st.now + (rank cfg st.stats (appKeyOf s) s.tool).length ≤ sr.expiresAt := by
    rw [hlen]
    exact hexp
  rcases runCandidates_allfail env s hfail (rank cfg st.stats (appKeyOf s) s.tool)
      st 0 [] sr hcur hexp2 with ⟨st2, evs2, hrun, hnow, hauth, hcirc⟩
  refine ⟨st2, Event.stepStarted s.stepId :: evs2, ?_, ?_, hauth, hcirc⟩
  · simp only [runStep, hrun]
    rw [hlen] at hrun ⊢
    simp [hrun]
  · rw [hnow, hlen]

theorem execSteps_circuit_abort (budget : Nat) (rest : List Step)
    {cfg : Config} {env : ExecEnv} {s : Step} {st st1 : ExecState}
    {att : Nat} {evs : List Event}
    (hrs : runStep cfg env s st = (StepVerdict.allFailed att, st1, evs))
    (hop : (circuitFailure cfg st1.now st1.circuit).isOpen = true) :
    execSteps cfg env budget (s :: rest) st =
      { status := ReportStatus.resourceExhausted,
        results := [{ stepId := s.stepId, strategyUsed := none,
                      attempts := att, success := false }],
        finalState := { st1 with circuit := circuitFailure cfg st1.now st1.circuit },
        events := evs ++ [Event.stepFailed s.stepId,
                          Event.planAborted AbortReason.circuitOpen] } := by
  rw [execSteps.eq_def]
  simp [hrs, hop]

theorem execSteps_fail_continue (budget : Nat) (rest : List Step)
    {cfg : Config} {env : ExecEnv} {s : Step} {st st1 : ExecState}
    {att : Nat} {evs : List Event}
    (hrs : runStep cfg env s st = (StepVerdict.allFailed att, st1, evs))
    (hop : (circuitFailure cfg st1.now st1.circuit).isOpen = false)
    (hcr : s.critical = false) :
    execSteps cfg env budget (s :: rest) st =
      { status := (execSteps cfg env budget rest
          { st1 with circuit := circuitFailure cfg st1.now st1.circuit }).status,
        results := { stepId := s.stepId, strategyUsed := none,
                     attempts := att, success := false } ::
          (execSteps cfg env budget rest
            { st1 with circuit := circuitFailure cfg st1.now st1.circuit }).results,
        finalState := (execSteps cfg env budget rest
          { st1 with circuit := circuitFailure cfg st1.now st1.circuit }).finalState,
        events := evs ++ [Event.stepFailed s.stepId] ++
          (execSteps cfg env budget rest
            { st1 with circuit := circuitFailure cfg st1.now st1.circuit }).events } := by
  rw [execSteps.eq_def]
  simp [hrs, hop, hcr]

/-- C3: The circuit breaker.  (1) A Step success resets the
consecutive-failure counter and closes the circuit.  (2) A Step failure that
reaches the configured threshold opens the circuit.  (3) When a Step failure
opens the circuit, the current Plan aborts immediately with
`ResourceExhausted`: its report carries only the failed Step and no event is
emitted for the remaining Steps.  (4) While the circuit is open and the
cool-down has not elapsed, no new Plan starts.  (5) Once the cool-down has
elapsed (or the circuit is closed), an admitted Plan does start.  (6) With
the default threshold of 3, three consecutive Step failures abort the Plan
with `ResourceExhausted`, skipping all remaining Steps. -/
theorem c3_circuit_breaker :
    (∀ c : CircuitState,
        circuitSuccess c =
          { consecutiveFailures := 0, isOpen := false, openedAt := c.openedAt }) ∧
    (∀ (cfg : Config) (now : Nat) (c : CircuitState),
        cfg.failureThreshold ≤ c.consecutiveFailures + 1 →
        circuitFailure cfg now c =
          { consecutiveFailures := c.consecutiveFailures + 1,
            isOpen := true, openedAt := now }) ∧
    (∀ (budget : Nat) (rest : List Step) (cfg : Config) (env : ExecEnv) (s : Step)
        (st st1 : ExecState) (att : Nat) (evs : List Event),
        runStep cfg env s st = (StepVerdict.allFailed att, st1, evs) →
        (circuitFailure cfg st1.now st1.circuit).isOpen = true →
        execSteps cfg env budget (s :: rest) st =
          { status := ReportStatus.resourceExhausted,
            results := [{ stepId := s.stepId, strategyUsed := none,
                          attempts := att, success := false }],
            finalState := { st1 with circuit := circuitFailure cfg st1.now st1.circuit },
            events := evs ++ [Event.stepFailed s.stepId,
                              Event.planAborted AbortReason.circuitOpen] }) ∧
    (∀ (cfg : Config) (env : ExecEnv) (p : Plan) (st : ExecState),
        st.circuit.isOpen = true → st.now < st.circuit.openedAt + cfg.cooldownTicks →
        startPlan cfg env p st = none) ∧
    (∀ (cfg : Config) (env : ExecEnv) (p : Plan) (st : ExecState),
        (PlanGuard.validate cfg p).admitted = true →
        (st.circuit.isOpen = false ∨ st.circuit.openedAt + cfg.cooldownTicks ≤ st.now) →
        (startPlan cfg env p st).isSome = true) ∧
    (∀ (cfg : Config) (env : ExecEnv) (budget : Nat) (s1 s2 s3 : Step)
        (rest : List Step) (st : ExecState) (sr : SessionRec),
        cfg.failureThreshold = 3 →
        s1.critical = false → s2.critical = false →
        (∀ t c, env.attemptRes t c = AttemptOutcome.fail FailureClass.unknown) →
        st.auth.current = some sr →
        st.now + 3 * cfg.defaultOrder.length ≤ sr.expiresAt →
        st.circuit.consecutiveFailures = 0 →
        st.circuit.isOpen = false →
        (execSteps cfg env budget (s1 :: s2 :: s3 :: rest) st).status =
          ReportStatus.resourceExhausted ∧
        (execSteps cfg env budget (s1 :: s2 :: s3 :: rest) st).results.length = 3) := by
  refine ⟨fun c => rfl, ?_, ?_, ?_, ?_, ?_⟩
  · intro cfg now c h
    unfold circuitFailure
    simp only
    rw [if_pos h]
  · intro budget rest cfg env s st st1 att evs hrs hop
    exact execSteps_circuit_abort budget rest hrs hop
  · intro cfg env p st hop hlt
    unfold startPlan
    by_cases hadm : (PlanGuard.validate cfg p).admitted = false
    · rw [if_pos hadm]
    · rw [if_neg hadm, if_pos ⟨hop, hlt⟩]
  · intro cfg env p st hadm hcool
    unfold startPlan
    rw [if_neg (by simp [hadm])]
    rw [if_neg ?_]
    · simp
    · rintro ⟨h1, h2⟩
      rcases hcool with h | h
      · simp [h] at h1
      · omega
  · intro cfg env budget s1 s2 s3 rest st sr hthr hcr1 hcr2 hfail hcur hexp hz hop
    obtain ⟨stA, evsA, hrsA, hnowA, hauthA, hcircA⟩ :=
      runStep_allfail cfg env s1 st sr hfail hcur (by omega)
    have hcfA : circuitFailure cfg stA.now stA.circuit =
        { consecutiveFailures := 1, isOpen := false, openedAt := st.circuit.openedAt } := by
      rw [hcircA]
      unfold circuitFailure
      rw [hz, hthr]
      simp [hop]
    have hopA : (circuitFailure cfg stA.now stA.circuit).isOpen = false := by
      rw [hcfA]
    obtain ⟨stB, evsB, hrsB, hnowB, hauthB, hcircB⟩ :=
      runStep_allfail cfg env s2
        { stA with circuit := circuitFailure cfg stA.now stA.circuit } sr hfail
        (by show stA.auth.current = some sr; rw [hauthA]; exact hcur)
        (by show stA.now + cfg.defaultOrder.length ≤ sr.expiresAt; omega)
    have hcfB : circuitFailure cfg stB.now stB.circuit =
        { consecutiveFailures := 2, isOpen := false, openedAt := st.circuit.openedAt } := by
      rw [hcircB]
      show circuitFailure cfg stB.now (circuitFailure cfg stA.now stA.circuit) = _
      rw [hcfA]
      unfold circuitFailure
      rw [hthr]
      simp
    have hopB : (circuitFailure cfg stB.now stB.circuit).isOpen = false := by
      rw [hcfB]
    obtain ⟨stC, evsC, hrsC, hnowC, hauthC, hcircC⟩ :=
      runStep_allfail cfg env s3
        { stB with circuit := circuitFailure cfg stB.now stB.circuit } sr hfail
        (by show stB.auth.current = some sr
            rw [hauthB]
            show stA.auth.current = some sr
            rw [hauthA]
            exact hcur)
        (by show stB.now + cfg.defaultOrder.length ≤ sr.expiresAt
            have h2 : stB.now = stA.now + cfg.defaultOrder.length := hnowB
            omega)
    have hopC : (circuitFailure cfg stC.now stC.circuit).isOpen = true := by
      rw [hcircC]
      show (circuitFailure cfg stC.now (circuitFailure cfg stB.now stB.circuit)).isOpen = true
      rw [hcfB]
      unfold circuitFailure
      rw [hthr]
      simp
    rw [execSteps_fail_continue budget (s2 :: s3 :: rest) hrsA hopA hcr1]
    simp only
    rw [execSteps_fail_continue budget (s3 :: rest) hrsB hopB hcr2]
    simp only
    rw [execSteps_circuit_abort budget rest hrsC hopC]
    simp

theorem statFor_recordStat_same :
    ∀ (stats : List StrategyStat) (k c : String) (succ : Bool),
      (statFor (recordStat stats k c succ) k c).attemptCount =
        (statFor stats k c).attemptCount + 1 ∧
      (statFor (recordStat stats k c succ) k c).successCount =
        (statFor stats k c).successCount + (if succ then 1 else 0) := by
  intro stats
  induction stats with
  | nil =>
    intro k c succ
    simp [recordStat, statFor]
  | cons t ts ih =>
    intro k c succ
    by_cases h : t.appKey = k ∧ t.strategyName = c
    · have hrec : recordStat (t :: ts) k c succ =
          { t with attemptCount := t.attemptCount + 1,
                   successCount := t.successCount + (if succ then 1 else 0) } :: ts := by
        simp only [recordStat]
        rw [if_pos h]
      rw [hrec]
      simp only [statFor]
      rw [if_pos h, if_pos h]
      simp
    · have hrec : recordStat (t :: ts) k c succ = t :: recordStat ts k c succ := by
        simp only [recordStat]
        rw [if_neg h]
      rw [hrec]
      simp only [statFor]
      rw [if_neg h, if_neg h]
      exact ih k c succ

theorem statFor_recordStat_other :
    ∀ (stats : List StrategyStat) (k c k2 c2 : String) (succ : Bool),
      (k ≠ k2 ∨ c ≠ c2) →
      statFor (recordStat stats k c succ) k2 c2 = statFor stats k2 c2 := by
  intro stats
  induction stats with
  | nil =>
    intro k c k2 c2 succ hne
    simp only [recordStat, statFor]
    rw [if_neg (by tauto)]
  | cons t ts ih =>
    intro k c k2 c2 succ hne
    by_cases h : t.appKey = k ∧ t.strategyName = c
    · have hq : ¬(t.appKey = k2 ∧ t.strategyName = c2) := by
        rintro ⟨q1, q2⟩
        rcases hne with hx | hx
        · exact hx (by rw [← h.1, q1])
        · exact hx (by rw [← h.2, q2])
      have hrec : recordStat (t :: ts) k c succ =
          { t with attemptCount := t.attemptCount + 1,
                   successCount := t.successCount + (if succ then 1 else 0) } :: ts := by
        simp only [recordStat]
        rw [if_pos h]
      rw [hrec]
      simp only [statFor]
      rw [if_neg hq, if_neg hq]
    · have hrec : recordStat (t :: ts) k c succ = t :: recordStat ts k c succ := by
        simp only [recordStat]
        rw [if_neg h]
      rw [hrec]
      simp only [statFor]
      by_cases hq : t.appKey = k2 ∧ t.strategyName = c2
      · rw [if_pos hq, if_pos hq]
      · rw [if_neg hq, if_neg hq]
        exact ih k c k2 c2 succ hne

theorem execSteps_nil (cfg : Config) (env : ExecEnv) (budget : Nat) (st : ExecState) :
    execSteps cfg env budget [] st =
      { status := ReportStatus.success, results := [], finalState := st,
        events := [Event.planFinished] } := by
  rw [execSteps.eq_def]

/-- C8: For a Step with ranked candidate Strategies `[A, B]` where A always
fails (unknown class) and B succeeds with the Verifier confirming, the Step
succeeds with `strategy_used = B` and `attempts = 2`, and in the recorded
statistics A's attempt count increments while A's success count stays
unchanged. -/
theorem c8_strategy_fallback (cfg : Config) (env : ExecEnv) (a b : String)
    (s : Step) (st : ExecState) (budget : Nat) (sr : SessionRec)
    (hab : a ≠ b)
    (hrank : rank cfg st.stats (appKeyOf s) s.tool = [a, b])
    (hFailA : ∀ t, env.attemptRes t a = AttemptOutcome.fail FailureClass.unknown)
    (hOkB : ∀ t, env.attemptRes t b = AttemptOutcome.ok)
    (hVerB : ∀ t, env.verifyOk t b = true)
    (hcur : st.auth.current = some sr)
    (hexp : st.now + 2 ≤ sr.expiresAt) :
    (execSteps cfg env budget [s] st).status = ReportStatus.success ∧
    (execSteps cfg env budget [s] st).results =
      [{ stepId := s.stepId, strategyUsed := some b, attempts := 2, success := true }] ∧
    (statFor (execSteps cfg env budget [s] st).finalState.stats
        (appKeyOf s) a).attemptCount =
      (statFor st.stats (appKeyOf s) a).attemptCount + 1 ∧
    (statFor (execSteps cfg env budget [s] st).finalState.stats
        (appKeyOf s) a).successCount =
      (statFor st.stats (appKeyOf s) a).successCount := by
  have hchk1 : check st.now st.auth = (true, st.auth) := by
    unfold check
    rw [hcur]
    simp [show st.now < sr.expiresAt by omega]
  have hchk2 : check (st.now + 1) st.auth = (true, st.auth) := by
    unfold check
    rw [hcur]
    simp [show st.now + 1 < sr.expiresAt by omega]
  have hao1 : attemptOnce env s a st =
      (AttemptR.failedWith FailureClass.unknown,
       { st with stats := recordStat st.stats (appKeyOf s) a false, now := st.now + 1 },
       [Event.strategyAttempt s.stepId a]) := by
    unfold attemptOnce
    rw [hchk1]
    simp only [hFailA st.now]
  have hao2 : attemptOnce env s b
      { st with stats := recordStat st.stats (appKeyOf s) a false, now := st.now + 1 } =
      (AttemptR.succeeded,
       { st with stats := recordStat (recordStat st.stats (appKeyOf s) a false)
                   (appKeyOf s) b true,
                 now := st.now + 1 + 1 },
       [Event.strategyAttempt s.stepId b, Event.stepVerifying s.stepId]) := by
    unfold attemptOnce
    simp only
    rw [hchk2]
    simp only [hOkB (st.now + 1), hVerB (st.now + 1)]
    simp
  have hrc : runCandidates env s [a, b] st 0 [] =
      (StepVerdict.ok b 2,
       { st with stats := recordStat (recordStat st.stats (appKeyOf s) a false)
                   (appKeyOf s) b true,
                 now := st.now + 1 + 1 },
       [Event.strategyAttempt s.stepId a, Event.stepStrategySwitch s.stepId a,
        Event.strategyAttempt s.stepId b, Event.stepVerifying s.stepId]) := by
    simp only [runCandidates, hao1]
    rw [if_neg (by simp)]
    rw [if_neg (by simp [recoverable])]
    simp only [runCandidates, hao2]
    rfl
  have hrs : runStep cfg env s st =
      (StepVerdict.ok b 2,
       { st with stats := recordStat (recordStat st.stats (appKeyOf s) a false)
                   (appKeyOf s) b true,
                 now := st.now + 1 + 1 },
       Event.stepStarted s.stepId ::
         [Event.strategyAttempt s.stepId a, Event.stepStrategySwitch s.stepId a,
          Event.strategyAttempt s.stepId b, Event.stepVerifying s.stepId]) := by
    simp only [runStep, hrank]
    rw [hrc]
  have hmain : execSteps cfg env budget [s] st =
      { status := ReportStatus.success,
        results := [{ stepId := s.stepId, strategyUsed := some b,
                      attempts := 2, success := true }],
        finalState :=
          { auth := st.auth, now := st.now + 1 + 1,
            circuit := circuitSuccess st.circuit,
            stats := recordStat (recordStat st.stats (appKeyOf s) a false)
              (appKeyOf s) b true },
        events := (Event.stepStarted s.stepId ::
          [Event.strategyAttempt s.stepId a, Event.stepStrategySwitch s.stepId a,
           Event.strategyAttempt s.stepId b, Event.stepVerifying s.stepId]) ++
          [Event.stepSucceeded s.stepId] ++ [Event.planFinished] } := by
    rw [execSteps.eq_def]
    simp only [hrs]
    rw [execSteps_nil]
  rw [hmain]
  refine ⟨rfl, rfl, ?_, ?_⟩
  · show (statFor (recordStat (recordStat st.stats (appKeyOf s) a false)
        (appKeyOf s) b true) (appKeyOf s) a).attemptCount =
      (statFor st.stats (appKeyOf s) a).attemptCount + 1
    rw [statFor_recordStat_other (recordStat st.stats (appKeyOf s) a false)
      (appKeyOf s) b (appKeyOf s) a true (Or.inr (Ne.symm hab))]
    exact (statFor_recordStat_same st.stats (appKeyOf s) a false).1
  · show (statFor (recordStat (recordStat st.stats (appKeyOf s) a false)
        (appKeyOf s) b true) (appKeyOf s) a).successCount =
      (statFor st.stats (appKeyOf s) a).successCount
    rw [statFor_recordStat_other (recordStat st.stats (appKeyOf s) a false)
      (appKeyOf s) b (appKeyOf s) a true (Or.inr (Ne.symm hab))]
    have h2 := (statFor_recordStat_same st.stats (appKeyOf s) a false).2
    simpa using h2

/-- Witness for C8: in the two-strategy configuration with "A" failing and
"B" succeeding, the single step succeeds via "B" in two attempts, and "A"
records one more attempt with an unchanged success count. -/
theorem c8_strategy_fallback_witness :
    (execSteps abConfig abEnv 30 [dummyStep] activeState).status =
      ReportStatus.success ∧
    (execSteps abConfig abEnv 30 [dummyStep] activeState).results =
      [{ stepId := dummyStep.stepId, strategyUsed := some "B",
         attempts := 2, success := true }] ∧
    (statFor (execSteps abConfig abEnv 30 [dummyStep] activeState).finalState.stats
        (appKeyOf dummyStep) "A").attemptCount =
      (statFor activeState.stats (appKeyOf dummyStep) "A").attemptCount + 1 ∧
    (statFor (execSteps abConfig abEnv 30 [dummyStep] activeState).finalState.stats
        (appKeyOf dummyStep) "A").successCount =
      (statFor activeState.stats (appKeyOf dummyStep) "A").successCount :=
  c8_strategy_fallback abConfig abEnv "A" "B" dummyStep activeState 30 activeSession
    (by decide) rfl (fun t => rfl) (fun t => rfl) (fun t => rfl) rfl (by decide)

theorem isAbortEvent_eq_true {e : Event} (h : isAbortEvent e = true) :
    ∃ r, e = Event.planAborted r := by
  cases e <;> simp [isAbortEvent] at h ⊢

theorem countP_abortFree {l : List Event} (hl : abortFree l) :
    l.countP isAbortEvent = 0 := by
  rw [List.countP_eq_zero]
  intro e he hp
  obtain ⟨r, rfl⟩ := isAbortEvent_eq_true hp
  exact hl r he

theorem execSteps_locked_resume (budget : Nat) (rest : List Step)
    {cfg : Config} {env : ExecEnv} {s : Step} {st st1 : ExecState}
    {att : Nat} {evs : List Event} {k : Nat}
    (hrs : runStep cfg env s st = (StepVerdict.locked att, st1, evs))
    (hfc : findClear env.lockCleared st1.now budget = some k) :
    execSteps cfg env budget (s :: rest) st =
      { status := (execSteps cfg env (budget - (k + 1)) (s :: rest)
          { st1 with now := st1.now + k + 1 }).status,
        results := (execSteps cfg env (budget - (k + 1)) (s :: rest)
          { st1 with now := st1.now + k + 1 }).results,
        finalState := (execSteps cfg env (budget - (k + 1)) (s :: rest)
          { st1 with now := st1.now + k + 1 }).finalState,
        events := evs ++ [Event.planPaused, Event.planResumed] ++
          (execSteps cfg env (budget - (k + 1)) (s :: rest)
            { st1 with now := st1.now + k + 1 }).events } := by
  rw [execSteps.eq_def]
  simp only [hrs]
  split
  · next k2 heq =>
    rw [hfc] at heq
    injection heq with hk
    subst hk
    rfl
  · next heq =>
    rw [hfc] at heq
    exact Option.noConfusion heq

theorem execSteps_locked_timeout (budget : Nat) (rest : List Step)
    {cfg : Config} {env : ExecEnv} {s : Step} {st st1 : ExecState}
    {att : Nat} {evs : List Event}
    (hrs : runStep cfg env s st = (StepVerdict.locked att, st1, evs))
    (hfc : findClear env.lockCleared st1.now budget = none) :
    execSteps cfg env budget (s :: rest) st =
      { status := ReportStatus.failed,
        results := [{ stepId := s.stepId, strategyUsed := none,
                      attempts := att, success := false }],
        finalState := st1,
        events := evs ++ [Event.planPaused,
                          Event.planAborted AbortReason.pauseTimeout] } := by
  rw [execSteps.eq_def]
  simp only [hrs]
  split
  · next k2 heq =>
    rw [hfc] at heq
    exact Option.noConfusion heq
  · rfl

/-- When every Strategy attempt from the current tick on succeeds with the
Verifier confirming, and the session stays valid long enough, the executor
completes the remaining Steps successfully. -/
theorem execSteps_allOk (cfg : Config) (env : ExecEnv) (sr : SessionRec)
    (hord : cfg.defaultOrder ≠ []) :
    ∀ (steps : List Step) (budget : Nat) (st : ExecState),
      (∀ t c, st.now ≤ t → env.attemptRes t c = AttemptOutcome.ok) →
      (∀ t c, st.now ≤ t → env.verifyOk t c = true) →
      st.auth.current = some sr →
      st.now + steps.length ≤ sr.expiresAt →
      (execSteps cfg env budget steps st).status = ReportStatus.success := by
  intro steps
  induction steps with
  | nil =>
    intro budget st _ _ _ _
    rw [execSteps_nil]
  | cons s rest ih =>
    intro budget st hok hver hcur hexp
    have hcand : ∃ c cs, rank cfg st.stats (appKeyOf s) s.tool = c :: cs := by
      have hlen := length_rank cfg st.stats (appKeyOf s) s.tool
      cases hr : rank cfg st.stats (appKeyOf s) s.tool with
      | nil =>
        rw [hr] at hlen
        exact absurd (List.length_eq_zero.mp hlen.symm) hord
      | cons c cs => exact ⟨c, cs, rfl⟩
    rcases hcand with ⟨c, cs, hr⟩
    have hlt : st.now < sr.expiresAt := by
      simp only [List.length_cons] at hexp
      omega
    have hchk : check st.now st.auth = (true, st.auth) := by
      unfold check
      rw [hcur]
      simp [hlt]
    have hao : attemptOnce env s c st =
        (AttemptR.succeeded,
         { st with stats := recordStat st.stats (appKeyOf s) c true, now := st.now + 1 },
         [Event.strategyAttempt s.stepId c, Event.stepVerifying s.stepId]) := by
      unfold attemptOnce
      rw [hchk]
      simp only [hok st.now c (Nat.le_refl _), hver st.now c (Nat.le_refl _)]
      simp
    have hrs : runStep cfg env s st =
        (StepVerdict.ok c 1,
         { st with stats := recordStat st.stats (appKeyOf s) c true, now := st.now + 1 },
         Event.stepStarted s.stepId ::
           [Event.strategyAttempt s.stepId c, Event.stepVerifying s.stepId]) := by
      simp only [runStep, hr]
      simp only [runCandidates, hao]
      rfl
    rw [execSteps.eq_def]
    simp only [hrs]
    refine ih budget _ ?_ ?_ hcur ?_
    · intro t c2 ht
      refine hok t c2 ?_
      simp only at ht
      omega
    · intro t c2 ht
      refine hver t c2 ?_
      simp only at ht
      omega
    · simp only [List.length_cons] at hexp
      simp only
      omega

/-- C7: A failure classified environment-locked pauses the Plan rather than
failing it.  First conjunct: whenever a Step comes back locked, the event
stream records `plan-paused`; if the lock clears within the remaining pause
budget the stream also records `plan-resumed` and execution carries on from
the resume point; if it does not clear, the Plan is marked Failed at the
timeout with exactly one terminal abort event.  Second conjunct: every
execution whatsoever emits at most one abort event, so the Plan is never
marked Failed more than once.  Third conjunct: when the lock clears within
the budget and, from the resume tick on, attempts succeed, verification
confirms and the session stays valid, the Plan completes successfully. -/
theorem c7_environment_locked :
    (∀ (cfg : Config) (env : ExecEnv) (budget : Nat) (s : Step) (rest : List Step)
        (st st1 : ExecState) (att : Nat) (evs : List Event),
        runStep cfg env s st = (StepVerdict.locked att, st1, evs) →
        (Event.planPaused ∈ (execSteps cfg env budget (s :: rest) st).events) ∧
        (∀ k, findClear env.lockCleared st1.now budget = some k →
            Event.planResumed ∈ (execSteps cfg env budget (s :: rest) st).events ∧
            (execSteps cfg env budget (s :: rest) st).status =
              (execSteps cfg env (budget - (k + 1)) (s :: rest)
                { st1 with now := st1.now + k + 1 }).status) ∧
        (findClear env.lockCleared st1.now budget = none →
            (execSteps cfg env budget (s :: rest) st).status = ReportStatus.failed ∧
            (execSteps cfg env budget (s :: rest) st).events.countP isAbortEvent = 1 ∧
            (execSteps cfg env budget (s :: rest) st).events =
              evs ++ [Event.planPaused, Event.planAborted AbortReason.pauseTimeout])) ∧
    (∀ (cfg : Config) (env : ExecEnv) (budget : Nat) (steps : List Step)
        (st : ExecState),
        (execSteps cfg env budget steps st).events.countP isAbortEvent ≤ 1) ∧
    (∀ (cfg : Config) (env : ExecEnv) (budget : Nat) (s : Step) (rest : List Step)
        (st st1 : ExecState) (att : Nat) (evs : List Event) (k : Nat) (sr : SessionRec),
        cfg.defaultOrder ≠ [] →
        runStep cfg env s st = (StepVerdict.locked att, st1, evs) →
        findClear env.lockCleared st1.now budget = some k →
        (∀ t c, st1.now + k + 1 ≤ t → env.attemptRes t c = AttemptOutcome.ok) →
        (∀ t c, st1.now + k + 1 ≤ t → env.verifyOk t c = true) →
        st1.auth.current = some sr →
        st1.now + k + 1 + (s :: rest).length ≤ sr.expiresAt →
        (execSteps cfg env budget (s :: rest) st).status = ReportStatus.success) := by
  refine ⟨?_, ?_, ?_⟩
  · intro cfg env budget s rest st st1 att evs hrs
    refine ⟨?_, ?_, ?_⟩
    · rcases hfc : findClear env.lockCleared st1.now budget with _ | k
      · rw [execSteps_locked_timeout budget rest hrs hfc]
        simp
      · rw [execSteps_locked_resume budget rest hrs hfc]
        simp
    · intro k hfc
      rw [execSteps_locked_resume budget rest hrs hfc]
      constructor
      · simp
      · rfl
    · intro hfc
      rw [execSteps_locked_timeout budget rest hrs hfc]
      refine ⟨rfl, ?_, rfl⟩
      have hfree := runStep_abortFree cfg env s st
      rw [hrs] at hfree
      simp [List.countP_append, countP_abortFree hfree, List.countP_cons, isAbortEvent]
  · intro cfg env budget steps st
    rcases execSteps_shape cfg env budget steps st with ⟨l, hl, h | ⟨r, h⟩⟩
    · rw [h, countP_abortFree hl]
      omega
    · rw [h]
      simp [List.countP_append, countP_abortFree hl, List.countP_cons, isAbortEvent]
  · intro cfg env budget s rest st st1 att evs k sr hord hrs hfc hok hver hcur hexp
    rw [execSteps_locked_resume budget rest hrs hfc]
    exact execSteps_allOk cfg env sr hord (s :: rest) (budget - (k + 1))
      { st1 with now := st1.now + k + 1 } hok hver hcur hexp

/-- Witness for C7: a step that is environment-locked until tick 5 pauses
and, once the lock clears, resumes and completes; the same step under a lock
that never clears is marked Failed with exactly one terminal abort event. -/
theorem c7_environment_locked_witness :
    (execSteps defaultConfig lockedEnv 30 [dummyStep] activeState).status =
      ReportStatus.success ∧
    (execSteps defaultConfig foreverLockedEnv 30 [dummyStep] activeState).status =
      ReportStatus.failed ∧
    (execSteps defaultConfig foreverLockedEnv 30 [dummyStep]
        activeState).events.countP isAbortEvent = 1 := by
  refine ⟨?_, ?_, ?_⟩
  · exact c7_environment_locked.2.2 defaultConfig lockedEnv 30 dummyStep [] activeState
      ⟨activeState.auth, 1, activeState.circuit,
        [⟨"global", "structural-accessibility", 0, 1⟩]⟩
      1 [Event.stepStarted 0, Event.strategyAttempt 0 "structural-accessibility"]
      4 activeSession (by decide) rfl (by decide)
      (fun t c ht => by
        show (if t < 5 then AttemptOutcome.fail FailureClass.environmentLocked
              else AttemptOutcome.ok) = AttemptOutcome.ok
        rw [if_neg (by omega)])
      (fun t c ht => rfl) rfl (by decide)
  · exact ((c7_environment_locked.1 defaultConfig foreverLockedEnv 30 dummyStep []
      activeState
      ⟨activeState.auth, 1, activeState.circuit,
        [⟨"global", "structural-accessibility", 0, 1⟩]⟩
      1 [Event.stepStarted 0, Event.strategyAttempt 0 "structural-accessibility"]
      rfl).2.2 (by decide)).1
  · exact ((c7_environment_locked.1 defaultConfig foreverLockedEnv 30 dummyStep []
      activeState
      ⟨activeState.auth, 1, activeState.circuit,
        [⟨"global", "structural-accessibility", 0, 1⟩]⟩
      1 [Event.stepStarted 0, Event.strategyAttempt 0 "structural-accessibility"]
      rfl).2.2 (by decide)).2.1

/-- Witness for C3: with the default configuration (threshold 3), an
always-failing environment and an active session, a plan of four
non-critical steps aborts with `ResourceExhausted` after exactly three step
failures, skipping the fourth step. -/
theorem c3_circuit_breaker_witness :
    defaultConfig.failureThreshold = 3 ∧
    (execSteps defaultConfig failEnv 30 [softStep, softStep, softStep, softStep]
        activeState).status = ReportStatus.resourceExhausted ∧
    (execSteps defaultConfig failEnv 30 [softStep, softStep, softStep, softStep]
        activeState).results.length = 3 :=
  ⟨rfl,
   (c3_circuit_breaker.2.2.2.2.2 defaultConfig failEnv 30 softStep softStep softStep
      [softStep] activeState activeSession rfl rfl rfl (fun t c => rfl) rfl (by decide)
      rfl rfl).1,
   (c3_circuit_breaker.2.2.2.2.2 defaultConfig failEnv 30 softStep softStep softStep
      [softStep] activeState activeSession rfl rfl rfl (fun t c => rfl) rfl (by decide)
      rfl rfl).2⟩

end Executor

/-! ## Theorems: ExecutionLogs grouped view (claim C10) -/

namespace Logs

theorem addToPlans_planOk :
    ∀ (ps : List PlanGroup) (pid : String) (log : LogEntry),
      (∀ p ∈ ps, p.success = p.steps.all (fun l => l.success)) →
      ∀ p ∈ addToPlans ps pid log, p.success = p.steps.all (fun l => l.success) := by
  intro ps
  induction ps with
  | nil =>
    intro pid log h p hp
    simp only [addToPlans, List.mem_singleton] at hp
    subst hp
    simp [pushLog]
  | cons q qs ih =>
    intro pid log h p hp
    by_cases hq : q.id = pid
    · simp only [addToPlans, if_pos hq] at hp
      rcases List.mem_cons.mp hp with h1 | h1
      · subst h1
        show (q.success && log.success) = (q.steps ++ [log]).all (fun l => l.success)
        rw [h q (List.mem_cons_self _ _), List.all_append]
        simp
      · exact h p (List.mem_cons_of_mem q h1)
    · simp only [addToPlans, if_neg hq] at hp
      rcases List.mem_cons.mp hp with h1 | h1
      · subst h1
        exact h p (List.mem_cons_self _ _)
      · exact ih pid log (fun p2 hp2 => h p2 (List.mem_cons_of_mem q hp2)) p h1

theorem addLog_map_id :
    ∀ (acc : List TaskGroup) (log : LogEntry),
      (addLog acc log).map TaskGroup.id =
        if taskKeyOf log ∈ acc.map TaskGroup.id then acc.map TaskGroup.id
        else acc.map TaskGroup.id ++ [taskKeyOf log] := by
  intro acc log
  induction acc with
  | nil => simp [addLog, newTask]
  | cons t rest ih =>
    by_cases h : t.id = taskKeyOf log
    · simp [addLog, h, updateTask]
    · have hne : taskKeyOf log ≠ t.id := fun heq => h heq.symm
      simp only [addLog, if_neg h, List.map_cons, ih]
      by_cases hm : taskKeyOf log ∈ rest.map TaskGroup.id
      · simp [hm, hne]
      · simp [hm, hne]

theorem addLog_success_inv :
    ∀ (acc : List TaskGroup) (processed : List LogEntry) (log : LogEntry),
      (acc.map TaskGroup.id).Nodup →
      (taskKeyOf log ∉ acc.map TaskGroup.id →
        processed.filter (fun l => taskKeyOf l == taskKeyOf log) = []) →
      (∀ t ∈ acc, t.success =
        (processed.filter (fun l => taskKeyOf l == t.id)).all (fun l => l.success)) →
      (∀ t ∈ acc, ∀ p ∈ t.plans, p.success = p.steps.all (fun l => l.success)) →
      (∀ t ∈ addLog acc log, t.success =
        ((processed ++ [log]).filter (fun l => taskKeyOf l == t.id)).all
          (fun l => l.success)) ∧
      (∀ t ∈ addLog acc log, ∀ p ∈ t.plans,
        p.success = p.steps.all (fun l => l.success)) := by
  intro acc
  induction acc with
  | nil =>
    intro processed log hnd hfresh h3 h4
    constructor
    · intro t ht
      simp only [addLog, List.mem_singleton] at ht
      subst ht
      have hemp : processed.filter (fun l => taskKeyOf l == taskKeyOf log) = [] :=
        hfresh (by simp)
      show (true && log.success) = _
      rw [List.filter_append]
      show _ = (processed.filter (fun l => taskKeyOf l == taskKeyOf log) ++ _).all _
      rw [hemp]
      simp [newTask]
    · intro t ht
      simp only [addLog, List.mem_singleton] at ht
      subst ht
      exact addToPlans_planOk [] (planKeyOf log) log (by simp)
  | cons t rest ih =>
    intro processed log hnd hfresh h3 h4
    by_cases h : t.id = taskKeyOf log
    · have hrestne : ∀ t2 ∈ rest, taskKeyOf log ≠ t2.id := by
        intro t2 ht2 heq
        have : t.id ∈ rest.map TaskGroup.id := by
          rw [h, heq]
          exact List.mem_map_of_mem TaskGroup.id ht2
        exact (List.nodup_cons.mp (by simpa using hnd)).1 this
      constructor
      · intro t2 ht2
        simp only [addLog, if_pos h] at ht2
        rcases List.mem_cons.mp ht2 with h1 | h1
        · subst h1
          show (t.success && log.success) = _
          rw [List.filter_append, List.all_append]
          have hpred : (taskKeyOf log == (updateTask t log).id) = true := by
            show (taskKeyOf log == t.id) = true
            simp [h]
          show _ = ((processed.filter (fun l => taskKeyOf l == t.id)).all _ &&
            ([log].filter (fun l => taskKeyOf l == t.id)).all _)
          have hlf : [log].filter (fun l => taskKeyOf l == t.id) = [log] := by
            simp [h]
          rw [hlf, h3 t (List.mem_cons_self _ _)]
          simp
        · have hne2 : (taskKeyOf log == t2.id) = false := by
            simp [hrestne t2 h1]
          rw [List.filter_append]
          have hlf : [log].filter (fun l => taskKeyOf l == t2.id) = [] := by
            simp [hne2]
          rw [hlf, List.append_nil]
          exact h3 t2 (List.mem_cons_of_mem t h1)
      · intro t2 ht2
        simp only [addLog, if_pos h] at ht2
        rcases List.mem_cons.mp ht2 with h1 | h1
        · subst h1
          exact addToPlans_planOk t.plans (planKeyOf log) log
            (h4 t (List.mem_cons_self _ _))
        · exact h4 t2 (List.mem_cons_of_mem t h1)
    · have hne : (taskKeyOf log == t.id) = false := by
        simp
        exact fun heq => h heq.symm
      have hih := ih processed log
        (List.nodup_cons.mp (by simpa using hnd)).2
        (fun hnm => hfresh (by
          simp only [List.map_cons, List.mem_cons]
          rintro (heq | hm)
          · exact h heq.symm
          · exact hnm hm))
        (fun t2 ht2 => h3 t2 (List.mem_cons_of_mem t ht2))
        (fun t2 ht2 => h4 t2 (List.mem_cons_of_mem t ht2))
      constructor
      · intro t2 ht2
        simp only [addLog, if_neg h] at ht2
        rcases List.mem_cons.mp ht2 with h1 | h1
        · subst h1
          rw [List.filter_append]
          have hlf : [log].filter (fun l => taskKeyOf l == t2.id) = [] := by
            simp [hne]
          rw [hlf, List.append_nil]
          exact h3 t2 (List.mem_cons_self _ _)
        · exact hih.1 t2 h1
      · intro t2 ht2
        simp only [addLog, if_neg h] at ht2
        rcases List.mem_cons.mp ht2 with h1 | h1
        · subst h1
          exact h4 t2 (List.mem_cons_self _ _)
        · exact hih.2 t2 h1

theorem addLog_nodup (acc : List TaskGroup) (log : LogEntry)
    (hnd : (acc.map TaskGroup.id).Nodup) :
    ((addLog acc log).map TaskGroup.id).Nodup := by
  rw [addLog_map_id]
  by_cases hm : taskKeyOf log ∈ acc.map TaskGroup.id
  · rw [if_pos hm]
    exact hnd
  · rw [if_neg hm]
    simp [List.nodup_append, hnd, hm]

theorem addLog_coverage (acc : List TaskGroup) (processed : List LogEntry)
    (log : LogEntry)
    (hcov : ∀ l ∈ processed, taskKeyOf l ∈ acc.map TaskGroup.id) :
    ∀ l ∈ processed ++ [log], taskKeyOf l ∈ (addLog acc log).map TaskGroup.id := by
  intro l hl
  rw [addLog_map_id]
  rcases List.mem_append.mp hl with h | h
  · by_cases hm : taskKeyOf log ∈ acc.map TaskGroup.id
    · rw [if_pos hm]
      exact hcov l h
    · rw [if_neg hm]
      exact List.mem_append_left _ (hcov l h)
  · rw [List.mem_singleton] at h
    subst h
    by_cases hm : taskKeyOf l ∈ acc.map TaskGroup.id
    · rw [if_pos hm]
      exact hm
    · rw [if_neg hm]
      exact List.mem_append_right _ (List.mem_singleton.mpr rfl)

theorem foldl_addLog_inv :
    ∀ (logs processed : List LogEntry) (acc : List TaskGroup),
      (acc.map TaskGroup.id).Nodup →
      (∀ l ∈ processed, taskKeyOf l ∈ acc.map TaskGroup.id) →
      (∀ t ∈ acc, t.success =
        (processed.filter (fun l => taskKeyOf l == t.id)).all (fun l => l.success)) →
      (∀ t ∈ acc, ∀ p ∈ t.plans, p.success = p.steps.all (fun l => l.success)) →
      (∀ t ∈ logs.foldl addLog acc, t.success =
        ((processed ++ logs).filter (fun l => taskKeyOf l == t.id)).all
          (fun l => l.success)) ∧
      (∀ t ∈ logs.foldl addLog acc, ∀ p ∈ t.plans,
        p.success = p.steps.all (fun l => l.success)) := by
  intro logs
  induction logs with
  | nil =>
    intro processed acc h1 h2 h3 h4
    constructor
    · intro t ht
      simp only [List.foldl_nil] at ht
      rw [List.append_nil]
      exact h3 t ht
    · intro t ht
      simp only [List.foldl_nil] at ht
      exact h4 t ht
  | cons log rest ih =>
    intro processed acc h1 h2 h3 h4
    have hfresh : taskKeyOf log ∉ acc.map TaskGroup.id →
        processed.filter (fun l => taskKeyOf l == taskKeyOf log) = [] := by
      intro hnm
      rw [List.filter_eq_nil_iff]
      intro l hl hp
      refine hnm ?_
      have heq : taskKeyOf l = taskKeyOf log := by simpa using hp
      rw [← heq]
      exact h2 l hl
    have hstep := addLog_success_inv acc processed log h1 hfresh h3 h4
    have hrec := ih (processed ++ [log]) (addLog acc log)
      (addLog_nodup acc log h1)
      (addLog_coverage acc processed log h2)
      hstep.1 hstep.2
    simp only [List.foldl_cons]
    constructor
    · intro t ht
      have := hrec.1 t ht
      rwa [List.append_assoc, List.singleton_append] at this
    · exact hrec.2

/-- C10: In the ExecutionLogs grouped view, for every list of log entries,
each task group's success flag is true if and only if every log entry
assigned to that task (by the `task_id || plan_id || 'no-task'` key) has a
truthy success field, and each plan group's success flag is true if and only
if every one of its step logs succeeded — so a single failed step marks both
its enclosing plan and its task as failed. -/
theorem c10_grouped_success_flags (logs : List LogEntry) (t : TaskGroup)
    (ht : t ∈ groupedData logs) :
    (t.success = true ↔ ∀ l ∈ logs, taskKeyOf l = t.id → l.success = true) ∧
    (∀ p ∈ t.plans, (p.success = true ↔ ∀ l ∈ p.steps, l.success = true)) := by
  have hmem : t ∈ logs.foldl addLog [] := by
    have := (mem_sortBy (fun a b => b.timestamp ≤ a.timestamp) t
      (logs.foldl addLog [])).mp
    exact this ht
  have hinv := foldl_addLog_inv logs [] [] (by simp) (by simp) (by simp) (by simp)
  constructor
  · have hs := hinv.1 t hmem
    rw [List.nil_append] at hs
    rw [hs, List.all_eq_true]
    constructor
    · intro hall l hl hkey
      exact hall l (List.mem_filter.mpr ⟨hl, by simp [hkey]⟩)
    · intro hfor l hl
      rcases List.mem_filter.mp hl with ⟨hl2, hpred⟩
      have heq : taskKeyOf l = t.id := by simpa using hpred
      exact hfor l hl2 heq
  · intro p hp
    have hps := hinv.2 t hmem p hp
    rw [hps, List.all_eq_true]

/-- Witness for C10: the single failed step of task T1 marks both its plan
P1 and the task itself as failed in the grouped view of three concrete
logs. -/
theorem c10_grouped_success_flags_witness :
    t1Group ∈ groupedData [okLog, failLog, otherLog] ∧
    ((t1Group.success = true ↔
        ∀ l ∈ [okLog, failLog, otherLog], taskKeyOf l = t1Group.id → l.success = true) ∧
     (∀ p ∈ t1Group.plans, (p.success = true ↔ ∀ l ∈ p.steps, l.success = true))) :=
  ⟨by decide,
   c10_grouped_success_flags [okLog, failLog, otherLog] t1Group (by decide)⟩

end Logs

end Cowork
